import Mathlib

/-!
# Verification of the Google Maps listing scraper (`google_maps.py`)

Shallow embedding of `GoogleMapsScraper` from `src/google_maps.py` and proofs
of the specified properties.

Modelling conventions:
* Strings are Lean `String`s; all scanning is done on `List Char` (`String.data`),
  which matches Python's per-codepoint string semantics.
* The handful of regular expressions used by the scraper are embedded as
  special-purpose matchers with the exact leftmost/greedy semantics of the
  original patterns (documented at each definition).
* Browser/DOM state is modelled as environment data supplied to each embedded
  method: every DOM read the Python code performs corresponds to one field of
  an environment structure.  DOM reads are total in the model; driver failures
  are modelled exactly at the places the Python code handles (or conspicuously
  does not handle) them: browser launch (`World.init_fails`, uncaught in
  `run`), the per-keyword `driver.get` (caught) and the per-item `driver.get`
  (caught).
* The cooperative-cancellation predicate `is_running_check` is modelled as a
  stream `ρ : Nat → Bool`; every call of the predicate consumes one index, and
  every observation is recorded as a `poll` event in the run's trace, together
  with `nav` (a `driver.get` page navigation), `prog` (progress callback) and
  `emit` (result callback) events.
* Python ints/floats are `Nat`/`Int`/`ℚ`.  The one float computation
  (`f"{ratio:.0f}"`, owner-photo percentage over a denominator of at most 10)
  is exactly round-half-to-even of the rational value in its reachable domain,
  and is embedded as such.
-/

namespace GScrape

/-! ## Character classes and low-level list scanning -/

/-- ASCII decimal digit, as matched by `\d` on the data the scraper reads. -/
def isDigitC (c : Char) : Bool := c.isDigit

/-- ASCII letter (the `[a-zA-Z]` class of `DOMAIN_RE`). -/
def isAlphaC (c : Char) : Bool := c.isAlpha

/-- The `[a-zA-Z0-9]` class of `DOMAIN_RE`. -/
def isAlnumC (c : Char) : Bool := c.isAlpha || c.isDigit

/-- The `[-a-zA-Z0-9\.]` class of `DOMAIN_RE`. -/
def isDomC (c : Char) : Bool := isAlnumC c || c = '-' || c = '.'

/-- Whitespace as stripped by Python's `str.strip()` / matched by `\s`
(common members; includes the ideographic space U+3000). -/
def isPySpace (c : Char) : Bool :=
  c = ' ' || c = '\t' || c = '\n' || c = '\r' ||
  c.toNat = 11 || c.toNat = 12 || c.toNat = 0x3000

def digitVal (c : Char) : Nat := c.toNat - 48

/-- Value of a string of decimal digits. -/
def digitsToNat (l : List Char) : Nat := l.foldl (fun a c => a * 10 + digitVal c) 0

/-- `lbegins pat l` : `pat` is a prefix of `l`. -/
def lbegins : List Char → List Char → Bool
  | [], _ => true
  | _ :: _, [] => false
  | p :: ps, c :: cs => p = c && lbegins ps cs

/-- `lfind pat l` : `pat` occurs as a contiguous substring of `l`
(Python's `pat in l`). -/
def lfind (pat : List Char) : List Char → Bool
  | [] => lbegins pat []
  | c :: cs => lbegins pat (c :: cs) || lfind pat cs

/-- Python's `needle in hay` on strings. -/
def strContains (hay needle : String) : Bool := lfind needle.data hay.data

/-- Python's `str.strip()` (with the whitespace set of `isPySpace`). -/
def pyStripL (l : List Char) : List Char :=
  ((l.dropWhile isPySpace).reverse.dropWhile isPySpace).reverse

def pyStrip (s : String) : String := String.mk (pyStripL s.data)

/-- Python's `str.lower()` restricted to ASCII letters (the only letters the
scraper lowercases that matter for its comparisons). -/
def pyLower (s : String) : String := String.mk (s.data.map Char.toLower)

/-- Python's `str.replace(pat, rep)`: replace all non-overlapping leftmost
occurrences.  `pat` is assumed non-empty (as at every call site).  The `fuel`
argument only makes the recursion structural; it is initialized to the list
length, which the remaining input never exceeds. -/
def lreplaceF (pat rep : List Char) : Nat → List Char → List Char
  | _, [] => []
  | 0, l => l
  | fuel + 1, c :: cs =>
    if lbegins pat (c :: cs) && !pat.isEmpty then
      rep ++ lreplaceF pat rep fuel ((c :: cs).drop pat.length)
    else
      c :: lreplaceF pat rep fuel cs

def lreplace (pat rep l : List Char) : List Char := lreplaceF pat rep l.length l

def strReplace (s pat rep : String) : String :=
  String.mk (lreplace pat.data rep.data s.data)

/-- `str.startswith` on the underlying character lists. -/
def strStarts (s pre : String) : Bool := lbegins pre.data s.data

/-- `str.endswith` on the underlying character lists. -/
def strEnds (s suf : String) : Bool := lbegins suf.data.reverse s.data.reverse

/-- First n characters, Python `s[:n]`. -/
def strTake (s : String) (n : Nat) : String := String.mk (s.data.take n)

/-- Join a list of strings with a separator (Python `sep.join`). -/
def joinSep (sep : String) : List String → String
  | [] => ""
  | [x] => x
  | x :: xs => x ++ sep ++ joinSep sep xs

/-! ## The scraper's regular expressions, embedded as dedicated matchers -/

/-- Leftmost match of `(\d+)` (`re.search(r'(\d+)', aria)` in `_get_reviews`):
the first maximal digit run, as a digit string. -/
def firstDigitRun : List Char → Option (List Char)
  | [] => none
  | c :: cs => if isDigitC c then some (c :: cs.takeWhile isDigitC) else firstDigitRun cs

/-- Match of `(\d+)\s*LIT` at the head of `l`: a maximal non-empty digit run,
then whitespace, then the literal `lit`.  (Backtracking cannot help this
pattern: giving digits back to the engine leaves a digit in front of `\s*LIT`,
which can never match, so maximal-run semantics are exact.) -/
def digitsBeforeAt (lit : List Char) (l : List Char) : Option (List Char) :=
  let ds := l.takeWhile isDigitC
  if ds = [] then none
  else
    let rest := (l.drop ds.length).dropWhile isPySpace
    if lbegins lit rest then some ds else none

/-- Leftmost search for `(\d+)\s*LIT` (used for `(\d+)\s*件のクチコミ` in
`_extract_review_count` and `(\d+)\s*年前` in `_apply_filters`).  Returns the
digit group. -/
def findDigitsBefore (lit : List Char) : List Char → Option (List Char)
  | [] => none
  | c :: cs =>
    match digitsBeforeAt lit (c :: cs) with
    | some ds => some ds
    | none => findDigitsBefore lit cs

/-- `re.search(r'(\d+)\s*年前', s)`, returning the parsed count. -/
def nenMaeNum (s : String) : Option Nat :=
  (findDigitsBefore "年前".data s.data).map digitsToNat

/-- Match of `(\d{4})年(\d{1,2})月` at the head of `l`: exactly four digits,
`年`, then greedily two (else one) digits, then `月`.  Returns
`(year, month, matchLen)` where `matchLen` is the length of the whole match
(used when the enclosing group's text is wanted). -/
def ymAt (l : List Char) : Option (Nat × Nat × Nat) :=
  match l with
  | a :: b :: c :: d :: e :: rest =>
    if isDigitC a && isDigitC b && isDigitC c && isDigitC d && e = '年' then
      match rest with
      | f :: g :: h :: _ =>
        if isDigitC f && isDigitC g && h = '月' then
          some (digitsToNat [a, b, c, d], digitsToNat [f, g], 8)
        else if isDigitC f && g = '月' then
          some (digitsToNat [a, b, c, d], digitsToNat [f], 7)
        else none
      | [f, g] =>
        if isDigitC f && g = '月' then
          some (digitsToNat [a, b, c, d], digitsToNat [f], 7)
        else none
      | _ => none
    else none
  | _ => none

/-- Leftmost search for `(\d{4})年(\d{1,2})月` (`date_to_num` inside
`_get_newest_photo_date`, and the absolute branch of `_apply_filters`).
Returns `(year, month)`. -/
def ymSearchL : List Char → Option (Nat × Nat)
  | [] => none
  | c :: cs =>
    match ymAt (c :: cs) with
    | some (y, m, _) => some (y, m)
    | none => ymSearchL cs

def ymSearch (s : String) : Option (Nat × Nat) := ymSearchL s.data

/-- Leftmost search for `(\d{4}年\d{1,2}月)` in `_get_photos`, returning the
matched text (the group is the whole match). -/
def ymSearchStr : List Char → Option String
  | [] => none
  | c :: cs =>
    match ymAt (c :: cs) with
    | some (_, _, n) => some (String.mk ((c :: cs).take n))
    | none => ymSearchStr cs

/-- Full match of `^\d+(\.\d+)?$` (`_extract_rating`). -/
def ratingShape (l : List Char) : Bool :=
  let ds := l.takeWhile isDigitC
  if ds = [] then false
  else
    match l.drop ds.length with
    | [] => true
    | '.' :: rest =>
      let fs := rest.takeWhile isDigitC
      !fs.isEmpty && (rest.drop fs.length).isEmpty
    | _ => false

/-- Prefix match of `^〒?\d{3}-\d{4}` (`re.match`, address detection in
`_extract_contact_info`). -/
def addrShape (l : List Char) : Bool :=
  let l := match l with
    | '〒' :: rest => rest
    | _ => l
  match l with
  | a :: b :: c :: '-' :: d :: e :: f :: g :: _ =>
    isDigitC a && isDigitC b && isDigitC c &&
    isDigitC d && isDigitC e && isDigitC f && isDigitC g
  | _ => false

/-- Full match of `^0\d{1,4}-\d{1,4}-\d{3,4}$` (phone detection).  The
bounded quantifiers are anchored between literals, so each digit group must
be exactly one maximal run of the stated length. -/
def phoneShape (l : List Char) : Bool :=
  match l with
  | '0' :: rest =>
    let d1 := rest.takeWhile isDigitC
    if 1 ≤ d1.length && d1.length ≤ 4 then
      match rest.drop d1.length with
      | '-' :: r2 =>
        let d2 := r2.takeWhile isDigitC
        if 1 ≤ d2.length && d2.length ≤ 4 then
          match r2.drop d2.length with
          | '-' :: r3 =>
            let d3 := r3.takeWhile isDigitC
            3 ≤ d3.length && d3.length ≤ 4 && (r3.drop d3.length).isEmpty
          | _ => false
        else false
      | _ => false
    else false
  | _ => false

/-- Match of `DOMAIN_RE` at a position:
`([a-zA-Z0-9][-a-zA-Z0-9\.]*\.[a-zA-Z]{2,24})(?:[\/\?#][^\s]*)?`.
Greedy `*` with backtracking chooses the rightmost `.` (inside the maximal
`[-a-zA-Z0-9\.]` run) that is followed by at least two letters; the letter
group then greedily takes up to 24 letters.  Returns the group-1 text. -/
def domAt (l : List Char) : Option (List Char) :=
  match l with
  | [] => none
  | c :: rest =>
    if isAlnumC c then
      let runLen := (rest.takeWhile isDomC).length
      let ok : Nat → Bool := fun k =>
        rest.get? k = some '.' &&
        2 ≤ ((rest.drop (k + 1)).takeWhile isAlphaC).length
      match (List.range runLen).reverse.find? ok with
      | some k =>
        some (c :: rest.take (k + 1) ++ ((rest.drop (k + 1)).takeWhile isAlphaC).take 24)
      | none => none
    else none

/-- Leftmost `DOMAIN_RE.search`. -/
def domSearch : List Char → Option (List Char)
  | [] => none
  | c :: cs =>
    match domAt (c :: cs) with
    | some g => some g
    | none => domSearch cs

/-! ## `urllib.parse` model (`urlsplit`, `urlparse`, `parse_qs`)

Only the behaviour the scraper relies on: scheme / netloc / path / query /
fragment splitting, the params split of `urlparse`, and extraction of the
first non-empty `q` value from a query string.  Percent decoding is modelled
for ASCII escapes; multi-byte UTF-8 escapes are kept literal (the scraper's
inputs never exercise them). -/

structure UrlParts where
  scheme : String
  netloc : String
  path : String
  query : String
  fragment : String
deriving DecidableEq, Repr

/-- Valid scheme characters after the first (letters, digits, `+`, `-`, `.`). -/
def isSchemeC (c : Char) : Bool := c.isAlpha || c.isDigit || c = '+' || c = '-' || c = '.'

/-- Split `s` at the first occurrence of `sep`; `none` when absent
(Python `s.split(sep, 1)` shape). -/
def splitFirst (sep : Char) : List Char → Option (List Char × List Char)
  | [] => none
  | c :: cs =>
    if c = sep then some ([], cs)
    else match splitFirst sep cs with
      | some (a, b) => some (c :: a, b)
      | none => none

/-- CPython `urlsplit` scheme recognition: a leading `:` at position `i > 0`,
first character an ASCII letter, all of `url[:i]` scheme characters. -/
def splitScheme (l : List Char) : Option (List Char × List Char) :=
  match splitFirst ':' l with
  | none => none
  | some (before, after) =>
    match before with
    | [] => none
    | c :: cs =>
      if c.isAlpha && cs.all isSchemeC then some (before, after) else none

/-- `_splitnetloc`: netloc runs up to the first of `/`, `?` or `#`. -/
def netlocSplit (l : List Char) : List Char × List Char :=
  let stop : Char → Bool := fun c => c = '/' || c = '?' || c = '#'
  (l.takeWhile (fun c => !stop c), l.dropWhile (fun c => !stop c))

/-- CPython `urllib.parse.urlsplit`. -/
def urlsplitM (s : String) : UrlParts :=
  let l := s.data
  let (scheme, l) :=
    match splitScheme l with
    | some (sc, rest) => (String.mk (sc.map Char.toLower), rest)
    | none => ("", l)
  let (netloc, l) :=
    match l with
    | '/' :: '/' :: rest =>
      let (n, r) := netlocSplit rest
      (String.mk n, r)
    | _ => ("", l)
  let (l, fragment) :=
    match splitFirst '#' l with
    | some (a, b) => (a, String.mk b)
    | none => (l, "")
  let (path, query) :=
    match splitFirst '?' l with
    | some (a, b) => (String.mk a, String.mk b)
    | none => (String.mk l, "")
  ⟨scheme, netloc, path, query, fragment⟩

/-- `_splitparams` of `urlparse`: parameters after `;` in the last path
segment. -/
def paramsSplit (path : List Char) : List Char × List Char :=
  let lastSeg := (path.reverse.takeWhile (fun c => c ≠ '/')).reverse
  let stem := path.take (path.length - lastSeg.length)
  match splitFirst ';' lastSeg with
  | some (a, b) => (stem ++ a, b)
  | none => (path, [])

/-- CPython `urllib.parse.urlparse` (fields the scraper reads: netloc, path,
query). -/
def urlparseM (s : String) : UrlParts :=
  let u := urlsplitM s
  let (p, _) := paramsSplit u.path.data
  { u with path := String.mk p }

def hexVal (c : Char) : Option Nat :=
  if isDigitC c then some (c.toNat - 48)
  else if 'a' ≤ c && c ≤ 'f' then some (c.toNat - 87)
  else if 'A' ≤ c && c ≤ 'F' then some (c.toNat - 70)
  else none

/-- `urllib.parse.unquote_plus` restricted to ASCII escapes: `+` becomes a
space and `%hh` with `hh < 0x80` decodes to that character; other escapes are
kept literal. -/
def unquotePlusL : List Char → List Char
  | [] => []
  | '+' :: rest => ' ' :: unquotePlusL rest
  | '%' :: a :: b :: rest =>
    match hexVal a, hexVal b with
    | some ha, some hb =>
      let n := ha * 16 + hb
      if n < 128 then Char.ofNat n :: unquotePlusL rest
      else '%' :: a :: b :: unquotePlusL rest
    | _, _ => '%' :: a :: b :: unquotePlusL rest
  | c :: rest => c :: unquotePlusL rest

def unquotePlus (s : String) : String := String.mk (unquotePlusL s.data)

/-- Split on `&`, accumulating the current field (Python `s.split('&')`,
the CPython ≥ 3.10 `parse_qs` separator behaviour). -/
def querySplitAux : List Char → List Char → List (List Char)
  | [], acc => [acc.reverse]
  | c :: cs, acc =>
    if c = '&' then acc.reverse :: querySplitAux cs []
    else querySplitAux cs (c :: acc)

def querySplit (l : List Char) : List (List Char) := querySplitAux l []

/-- `parse_qs(query).get("q", [""])[0]`: the first `name=value` field with
name `q` and non-empty raw value, percent-decoded; `""` when absent.  Fields
without `=` or with an empty raw value are dropped
(`keep_blank_values=False`). -/
def qsFirstQ (query : String) : String :=
  let fields := querySplit query.data
  let entries := fields.filterMap (fun f =>
    match splitFirst '=' f with
    | some (n, v) => if v = [] then none else some (unquotePlusL n, unquotePlusL v)
    | none => none)
  match entries.find? (fun e => e.1 = "q".data) with
  | some e => String.mk e.2
  | none => ""

/-! ## Pure helpers of `GoogleMapsScraper` -/

/-- `_extract_domain`: reject empty text and e-mail-looking text, then search
`DOMAIN_RE` in the stripped text and return group 1. -/
def extract_domain (text : String) : String :=
  if text = "" || strContains text "@" then ""
  else
    match domSearch (pyStripL text.data) with
    | some g => String.mk g
    | none => ""

/-- `_normalize_url`: strip; substitute the `q` query parameter of a
`…google.com/url?...` redirect; prepend `http://` when the result does not
start with `http://` or `https://`. -/
def normalize_url (s : String) : String :=
  if s = "" then ""
  else
    let s := pyStrip s
    let parts := urlsplitM s
    let s :=
      if strEnds parts.netloc "google.com" && strStarts parts.path "/url" then
        let q := qsFirstQ parts.query
        if q ≠ "" then q else s
      else s
    if strStarts s "http://" || strStarts s "https://" then s else "http://" ++ s

/-- `_is_claim_link`: `business.google.com` host with a `/create` path, or the
`gmbsrc=` / `ppsrc=GMBMI` query markers. -/
def is_claim_link (url : String) : Bool :=
  if url = "" then false
  else
    let p := urlparseM url
    (strContains p.netloc "business.google.com" && strContains p.path "/create") ||
    strContains p.query "gmbsrc=" || strContains p.query "ppsrc=GMBMI"

/-- Sort key of `_pick_best_url`: `len(urlparse(u).netloc or u)`. -/
def sortKeyU (u : String) : Nat :=
  let n := (urlparseM u).netloc
  if n = "" then u.length else n.length

/-- Stable ascending insertion (an element is inserted before later elements
with an equal key), realizing Python's stable `list.sort(key=...)`. -/
def insAsc (key : α → Nat) (x : α) : List α → List α
  | [] => [x]
  | y :: ys => if key x ≤ key y then x :: y :: ys else y :: insAsc key x ys

/-- Stable sort by key, ascending (Python `list.sort(key=...)`). -/
def stableSortBy (key : α → Nat) (l : List α) : List α := l.foldr (insAsc key) []

/-- The survivors of `_pick_best_url`'s cleaning loop: each candidate
normalized, empty results and claim links dropped, order preserved. -/
def cleanedCandidates (urls : List String) : List String :=
  (urls.map normalize_url).filter (fun nu => !(nu = "") && !is_claim_link nu)

/-- `_pick_best_url`: clean, then stable-sort by host length and take the
first element. -/
def pick_best_url (urls : List String) : String :=
  if urls = [] then ""
  else
    let cleaned := cleanedCandidates urls
    if cleaned = [] then ""
    else (stableSortBy sortKeyU cleaned).headD ""

/-- Specification-side selector: the first element attaining the minimal key
("shortest host name …, ties resolved by first-seen order").  Used only to
compare `_pick_best_url` against the spec's wording. -/
def firstMinBy (key : α → Nat) : List α → Option α
  | [] => none
  | x :: xs =>
    match firstMinBy key xs with
    | none => some x
    | some m => if key x ≤ key m then some x else some m

/-- `date_to_num` inside `_get_newest_photo_date`: `year*12 + month` when the
`(\d{4})年(\d{1,2})月` pattern is found, else 0. -/
def date_to_num (s : String) : Nat :=
  match ymSearch s with
  | some (y, m) => y * 12 + m
  | none => 0

/-- Stable descending insertion (equal keys keep first-seen order), realizing
Python's stable `sorted(key=..., reverse=True)`. -/
def insDesc (key : α → Nat) (x : α) : List α → List α
  | [] => [x]
  | y :: ys => if key y ≤ key x then x :: y :: ys else y :: insDesc key x ys

def stableSortDescBy (key : α → Nat) (l : List α) : List α := l.foldr (insDesc key) []

/-- `_get_newest_photo_date`: empty list gives `""`; otherwise sort by
`date_to_num` descending (stable) and take the head. -/
def get_newest_photo_date (dates : List String) : String :=
  if dates = [] then ""
  else (stableSortDescBy date_to_num dates).headD ""

/-- Specification-side maximum: the first element attaining the maximal key. -/
def firstMaxBy (key : α → Nat) : List α → Option α
  | [] => none
  | x :: xs =>
    match firstMaxBy key xs with
    | none => some x
    | some m => if key m ≤ key x then some x else some m

/-! ## Dates and number parsing for the filter engine -/

/-- Proleptic-Gregorian day number (Howard Hinnant's `days_from_civil`,
specialized to Lean's floor division; day 0 = 1970-01-01).  Agrees with
Python `datetime` subtraction on every valid date, in particular on the
4-digit years the scraper's regex can produce. -/
def daysFromCivil (y m d : Int) : Int :=
  let y' := if m ≤ 2 then y - 1 else y
  let era := y' / 400
  let yoe := y' - era * 400
  let mp := (m + 9) % 12
  let doy := (153 * mp + 2) / 5 + d - 1
  let doe := yoe * 365 + yoe / 4 - yoe / 100 + doy
  era * 146097 + doe - 719468

/-- The civil date of `datetime.now()` (the time of day never influences the
day difference `(now − photo_date).days` for a midnight subtrahend). -/
structure CivilD where
  y : Int
  m : Int
  d : Int
deriving DecidableEq, Repr

/-- Python `float(s)` on the scraper's rating strings: strip, optional sign,
`d+`, `d+.d*` or `.d+` (exponents, `inf`/`nan` and exotic digits never occur
in the scraped fields and are not modelled). -/
def pyFloatQ (s : String) : Option ℚ :=
  let l := pyStripL s.data
  let (sign, l) : ℚ × List Char :=
    match l with
    | '+' :: r => (1, r)
    | '-' :: r => (-1, r)
    | _ => (1, l)
  let ds := l.takeWhile isDigitC
  match l.drop ds.length with
  | [] => if ds = [] then none else some (sign * digitsToNat ds)
  | '.' :: fr =>
    let fs := fr.takeWhile isDigitC
    if (fr.drop fs.length).isEmpty && !(ds.isEmpty && fs.isEmpty) then
      some (sign * ((digitsToNat ds : ℚ) + (digitsToNat fs : ℚ) / (10 ^ fs.length : ℕ)))
    else none
  | _ => none

/-- Python `int(s)`: strip, optional sign, digits (underscore separators are
not modelled; they never occur in scraped review counts). -/
def pyIntZ (s : String) : Option Int :=
  let l := pyStripL s.data
  let (sign, l) : Int × List Char :=
    match l with
    | '+' :: r => (1, r)
    | '-' :: r => (-1, r)
    | _ => (1, l)
  if l ≠ [] && l.all isDigitC then some (sign * digitsToNat l) else none

/-- Round half to even (the rounding of Python's `round` and of `f"{x:.0f}"`;
exact for the scraper's ratio `owner/total*100` with `total ≤ 10`, where the
float value coincides with the rational value at every half-integer). -/
def roundHalfEvenQ (q : ℚ) : Int :=
  let f := ⌊q⌋
  let r := q - f
  if r < 1/2 then f
  else if 1/2 < r then f + 1
  else if f % 2 = 0 then f else f + 1

/-! ## Data model -/

/-- `photos` sub-dictionary built by `_get_photos`. -/
structure PhotoStats where
  owner_count : Nat := 0
  user_count : Nat := 0
  owner_ratio : String := "0%"
  latest_date : String := ""
deriving DecidableEq, Repr

/-- The record dictionary assembled by `_extract_detail`. -/
structure Record where
  keyword : String := ""
  title : String := ""
  rating : String := ""
  review_count : String := ""
  phone : String := ""
  address : String := ""
  website : String := ""
  category : String := ""
  latest_date : String := ""
  latest_content : String := ""
  reviews : List String := []
  photos : PhotoStats := {}
  owner_reply_count : Nat := 0
  total_review_checked : Nat := 0
  reply_ratio : String := "0/0"
deriving DecidableEq, Repr

/-- The `filters` dictionary: recognized keys, absent keys as `none`
(`filters.get(key, default)` semantics). -/
structure Filters where
  reply : Option Int := none
  photo : Option Int := none
  min_rating : Option ℚ := none
  max_reviews : Option Int := none
deriving DecidableEq, Repr

/-- `_apply_filters(data, filters)`, with `now` the civil date of
`datetime.now()`.  Returns `true` when the record is accepted. -/
def apply_filters (now : CivilD) (data : Record) (filters : Filters) : Bool :=
  -- 口コミ返信フィルター
  let reply_filter := filters.reply.getD 0
  if reply_filter = 1 && data.owner_reply_count = 0 then false
  else if reply_filter ≠ 1 && reply_filter = 2 && 0 < data.owner_reply_count then false
  else
    -- 写真更新フィルター
    let photo_filter := filters.photo.getD 0
    let photoReject : Bool :=
      if photo_filter = 1 || photo_filter = 2 then
        let latest_date := data.photos.latest_date
        if latest_date ≠ "" then
          if strContains latest_date "年前" then
            match nenMaeNum latest_date with
            | some years =>
              (photo_filter = 1 && 1 ≤ years) || (photo_filter = 2 && 2 ≤ years)
            | none => false
          else if strContains latest_date "年" && strContains latest_date "月" then
            match ymSearch latest_date with
            | some (y, m) =>
              let days := daysFromCivil now.y now.m now.d - daysFromCivil (y : Int) (m : Int) 1
              let years_diff : ℚ := (days : ℚ) / 365
              (photo_filter = 1 && 1 ≤ years_diff) || (photo_filter = 2 && 2 ≤ years_diff)
            | none => false
          else false
        else false
      else false
    if photoReject then false
    else
      -- 旧フィルター互換（評価、口コミ数）
      let minReject : Bool :=
        match filters.min_rating with
        | some v =>
          if v ≠ 0 then
            match (if data.rating = "" then some (0 : ℚ) else pyFloatQ data.rating) with
            | some r => decide (r < v)
            | none => false  -- float() raised; except: pass
          else false
        | none => false
      if minReject then false
      else
        match filters.max_reviews with
        | some w =>
          if w ≠ 0 then
            match (if data.review_count = "" then some (0 : Int) else pyIntZ data.review_count) with
            | some k => !decide (w < k)  -- reject when reviews > max_reviews
            | none => true  -- int() raised; except: pass
          else true
        | none => true

/-! ## Contact / identity extraction -/

/-- `_extract_review_count`: the digit group of `(\d+)\s*件のクチコミ` in the
element's stripped aria-label, else `""` (also when the element is absent,
modelled as an empty label). -/
def extract_review_count (label : String) : String :=
  match findDigitsBefore "件のクチコミ".data (pyStripL label.data) with
  | some ds => String.mk ds
  | none => ""

/-- `_extract_rating`: only read when the review count is a positive integer
(`isdigit` and non-zero); accept only text fully matching `^\d+(\.\d+)?$`. -/
def extract_rating (review_count : String) (ratingText : String) : String :=
  if review_count = "" || !(review_count.data.all isDigitC) ||
      digitsToNat review_count.data = 0 then ""
  else
    let txt := pyStrip ratingText
    if ratingShape txt.data then txt else ""

/-- `_extract_contact_info`: website candidates are the `ウェブサイト` link's
href (when present) followed by every domain found in the info texts; address
and phone are the first matching info texts. -/
def extract_contact_info (websiteHref : String) (infoTexts : List String) :
    String × String × String :=
  let step : (String × String × List String) → String → (String × String × List String) :=
    fun acc t =>
      let (addr, phone, doms) := acc
      let txt := pyStrip t
      let addr := if addr = "" && addrShape txt.data then txt else addr
      let phone := if phone = "" && phoneShape txt.data then txt else phone
      let dom := extract_domain txt
      let doms := if dom ≠ "" then doms ++ [dom] else doms
      (addr, phone, doms)
  let (address, phone, doms) := infoTexts.foldl step ("", "", [])
  let candidates := (if websiteHref ≠ "" then [websiteHref] else []) ++ doms
  (address, phone, pick_best_url candidates)

/-! ## Events, polls and environments

Every call of `is_running_check()` consumes one index of the stream
`ρ : Nat → Bool` and is recorded as a `poll` event tagged with its syntactic
site.  `nav` records a `driver.get` page navigation (tab clicks and keyboard
input are not page navigations), `prog` the progress callback, `emit` the
result callback (with the record's dedup key `title ++ "__" ++ address`). -/

inductive Site where
  | kwLoop | scrollLoop | itemLoop | titleLoop | afterTitle | afterContact
  | photosHead | photosScroll | photosLoop | afterPhotos
  | reviewsHead | reviewsTab | afterReviews
  | updatesHead | updatesLoop
deriving DecidableEq, Repr

inductive Ev where
  | nav (url : String)
  | emit (key : String)
  | prog (i total : Nat)
  | poll (s : Site) (b : Bool)
deriving DecidableEq, Repr

/-- One `div.jftiEf` review element, as read by `_get_reviews`: author text,
star aria-label, date text, review text (each `""` when the sub-element is
absent), the texts of the `span.fontTitleSmall` children, and whether a
`div.CDe7pd` reply container exists. -/
structure ReviewEl where
  author : String := ""
  stars_aria : String := ""
  rdate : String := ""
  rtext : String := ""
  title_small : List String := []
  reply_div : Bool := false
deriving DecidableEq, Repr

/-- One photo view inside the gallery: author label text, date element text
(each `""` when absent), and whether some "next" control works at this step
(the four fallbacks collapsed to one flag). -/
structure PhotoView where
  pauthor : String := ""
  pdate : String := ""
  can_next : Bool := true
deriving Repr

/-- Environment of `_get_photos`: whether one of the five opening strategies
succeeds, the thumbnail count seen at each scroll iteration, the final
thumbnail re-query, whether clicking the first photo works, and the photo
view at each step. -/
structure PhotosEnv where
  open_ok : Bool := false
  thumbs_at : Nat → Nat := fun _ => 0
  final_thumbs : Nat := 0
  first_click_ok : Bool := true
  view_at : Nat → PhotoView := fun _ => {}

/-- Environment of `_get_latest_updates`: the initial `button.SBD2Rc.waIsr`
count, the re-queried count at each index, the post content/date after
selector fallbacks, and whether the click/re-query of an index raises
(caught by `except: continue`). -/
structure PostEnv where
  buttons0 : Nat := 0
  buttons_at : Nat → Nat := fun _ => 0
  content_at : Nat → String := fun _ => ""
  date_at : Nat → String := fun _ => ""
  fail_at : Nat → Bool := fun _ => false

/-- Environment of `_extract_detail` for one listing: the `h1.DUwDvf` text at
each poll attempt, the review-count aria-label, the rating text, the category
text, the `ウェブサイト` link href (`""` when absent), the info-text blocks,
the `button[role="tab"]` texts, and the three sub-extractor environments. -/
structure DetailEnv where
  title_at : Nat → String := fun _ => ""
  review_label : String := ""
  rating_text : String := ""
  category_text : String := ""
  website_href : String := ""
  info_texts : List String := []
  tabs : List String := []
  photos_env : PhotosEnv := {}
  review_els : List ReviewEl := []
  posts_env : PostEnv := {}

/-! ## Review extraction -/

/-- Owner-reply detection for one review element: a `span.fontTitleSmall`
containing `オーナーからの返信`, or the presence of the reply container. -/
def elHasReply (el : ReviewEl) : Bool :=
  el.title_small.any (fun t => strContains t "オーナーからの返信") || el.reply_div

/-- The per-element body of `_get_reviews`'s loop: the formatted review entry
(`""` when the review text is empty, in which case nothing is appended) and
the owner-reply flag. -/
def reviewOne (el : ReviewEl) : String × Bool :=
  let author := pyStrip el.author
  let stars :=
    match firstDigitRun el.stars_aria.data with
    | some ds => String.mk ds
    | none => ""
  let date := pyStrip el.rdate
  let text := strTake (pyStrip el.rtext) 200
  let entry :=
    if text ≠ "" then "[" ++ author ++ "] ★" ++ stars ++ " (" ++ date ++ "): " ++ text
    else ""
  (entry, elHasReply el)

/-- `_get_reviews`.  Returns `((reviews, owner_reply_count,
total_review_checked, reply_ratio), events, next poll index)`.  The early
returns (stop observed, or no `クチコミ` tab) yield `"0%"` as the ratio —
faithfully reproducing the code, which only builds `"x/y"` on the fall-through
path. -/
def get_reviews (ρ : Nat → Bool) (p : Nat) (tabs : List String) (els : List ReviewEl) :
    (List String × Nat × Nat × String) × List Ev × Nat :=
  if ρ p = false then (([], 0, 0, "0%"), [Ev.poll .reviewsHead false], p + 1)
  else
    let found := tabs.any (fun t => strContains t "クチコミ")
    if found = false then
      (([], 0, 0, "0%"), [Ev.poll .reviewsHead true], p + 1)
    else if ρ (p + 1) = false then
      (([], 0, 0, "0%"), [Ev.poll .reviewsHead true, Ev.poll .reviewsTab false], p + 2)
    else
      let total := min els.length 5
      let pairs := (els.take 5).map reviewOne
      let reviews := (pairs.filter (fun x => x.1 ≠ "")).map (·.1)
      let cnt := pairs.countP (·.2)
      let ratio := if 0 < total then toString cnt ++ "/" ++ toString total else "0/0"
      ((reviews, cnt, total, ratio),
       [Ev.poll .reviewsHead true, Ev.poll .reviewsTab true], p + 2)

/-! ## Photo extraction -/

/-- The legal-entity markers removed by
`re.sub(r'(株式会社|有限会社|㈱|㈲|合同会社|LLC)', '', store_name)`. -/
def legalAlts : List (List Char) :=
  ["株式会社".data, "有限会社".data, "㈱".data, "㈲".data, "合同会社".data, "LLC".data]

/-- `re.sub` with the alternation above: at each position remove the first
alternative that matches, else keep the character.  The `fuel` argument only
makes the recursion structural (every alternative is non-empty). -/
def reSubLegalF : Nat → List Char → List Char
  | _, [] => []
  | 0, l => l
  | fuel + 1, c :: cs =>
    match legalAlts.find? (fun a => lbegins a (c :: cs)) with
    | some a => reSubLegalF fuel ((c :: cs).drop a.length)
    | none => c :: reSubLegalF fuel cs

def reSubLegal (l : List Char) : List Char := reSubLegalF l.length l

/-- Owner-name candidates built from the store name in `_get_photos`. -/
def ownerNames (store_name : String) : List String :=
  let base := [pyLower store_name,
               pyLower (strReplace store_name " " ""),
               pyLower (strReplace store_name "　" "")]
  let clean := pyStrip (String.mk (reSubLegal store_name.data))
  base ++ (if clean ≠ "" then [pyLower clean] else [])

/-- Owner classification for one photo author (non-empty): never an owner for
Street-View / Google attributions, else owner iff some name candidate is a
substring of the normalized author or vice versa. -/
def classifyOwner (names : List String) (author : String) : Bool :=
  let al := strReplace (strReplace (pyLower author) " " "") "　" ""
  if strContains author "ストリートビュー" || strContains al "street view" || al = "google" then
    false
  else
    names.any (fun nm => strContains al nm || strContains nm al)

/-- The thumbnail-loading loop of `_get_photos` (≤ 15 scroll iterations, `i`
scrolls performed so far, early break after 3 stable recounts, stop observed
at an iteration head aborts the whole extractor).  Returns
`(events, next poll index, aborted)`. -/
def photoScrollLoop (ρ : Nat → Bool) (env : PhotosEnv) :
    Nat → Nat → Nat → Nat → Nat → List Ev × Nat × Bool
  | _, p, _, _, 0 => ([], p, false)
  | i, p, prev, stable, fuel + 1 =>
    if ρ p = false then ([Ev.poll .photosScroll false], p + 1, true)
    else
      let cnt := env.thumbs_at i
      if cnt = prev then
        if 2 ≤ stable then ([Ev.poll .photosScroll true], p + 1, false)
        else
          let (tr, p', ab) := photoScrollLoop ρ env (i + 1) (p + 1) cnt (stable + 1) fuel
          (Ev.poll .photosScroll true :: tr, p', ab)
      else
        let (tr, p', ab) := photoScrollLoop ρ env (i + 1) (p + 1) cnt 0 fuel
        (Ev.poll .photosScroll true :: tr, p', ab)

/-- The per-photo loop of `_get_photos`: read author and date, break when both
are empty, collect the date, classify, advance (break when no "next" control
works); a stop observed at the head breaks the loop keeping the accumulated
counts.  `remaining` starts at `photos_to_check`. -/
def photoLoop (ρ : Nat → Bool) (env : PhotosEnv) (names : List String) :
    Nat → Nat → Nat → Nat → List String → Nat → (Nat × Nat × List String) × List Ev × Nat
  | _, p, own, usr, dates, 0 => ((own, usr, dates), [], p)
  | i, p, own, usr, dates, remaining + 1 =>
    if ρ p = false then ((own, usr, dates), [Ev.poll .photosLoop false], p + 1)
    else
      let pv := env.view_at i
      let author := pyStrip pv.pauthor
      let date :=
        match ymSearchStr (pyStripL pv.pdate.data) with
        | some d => d
        | none => ""
      if author = "" && date = "" then
        ((own, usr, dates), [Ev.poll .photosLoop true], p + 1)
      else
        let dates := if date ≠ "" then dates ++ [date] else dates
        let isOwner := if author ≠ "" then classifyOwner names author else false
        let own := if isOwner then own + 1 else own
        let usr := if isOwner then usr else usr + 1
        if remaining = 0 then ((own, usr, dates), [Ev.poll .photosLoop true], p + 1)
        else if pv.can_next then
          let (res, tr, p') := photoLoop ρ env names (i + 1) (p + 1) own usr dates remaining
          (res, Ev.poll .photosLoop true :: tr, p')
        else ((own, usr, dates), [Ev.poll .photosLoop true], p + 1)

/-- The tail of `_get_photos` (source lines 716–725): store the counts,
compute `f"{(owner/total)*100:.0f}%"` (round half to even) when the
denominator is positive, and the newest collected date when any date was
collected. -/
def assemblePhotoStats (own usr : Nat) (dates : List String) : PhotoStats :=
  let total := own + usr
  let ratioStr :=
    if 0 < total then
      toString (roundHalfEvenQ (((own : ℚ) / (total : ℚ)) * 100)) ++ "%"
    else "0%"
  let latest := if dates ≠ [] then get_newest_photo_date dates else ""
  ⟨own, usr, ratioStr, latest⟩

/-- `_get_photos`.  Default result on every early exit; after the per-photo
loop (even when it was broken by a stop observation) the counts, the
half-even-rounded owner percentage and the newest collected date are
assembled. -/
def get_photos (ρ : Nat → Bool) (p : Nat) (store_name : String) (env : PhotosEnv) :
    PhotoStats × List Ev × Nat :=
  let res0 : PhotoStats := {}
  if ρ p = false then (res0, [Ev.poll .photosHead false], p + 1)
  else
    let tr0 := [Ev.poll .photosHead true]
    if env.open_ok = false then (res0, tr0, p + 1)
    else
      let (trS, p2, aborted) := photoScrollLoop ρ env 0 (p + 1) 0 0 15
      if aborted then (res0, tr0 ++ trS, p2)
      else
        let actual := min env.final_thumbs 20
        if actual = 0 then (res0, tr0 ++ trS, p2)
        else if env.first_click_ok = false then (res0, tr0 ++ trS, p2)
        else
          let n := min actual 10
          let names := ownerNames store_name
          let ((own, usr, dates), trL, p3) := photoLoop ρ env names 0 p2 0 0 [] n
          (assemblePhotoStats own usr dates, tr0 ++ trS ++ trL, p3)

/-! ## Recent-posts extraction -/

/-- The per-post loop of `_get_latest_updates`: re-query the button list by
index, break when the index fell out of range, read content (truncated to
200) and date, record the first post's date, and continue on a caught
exception. -/
def updatesLoop (ρ : Nat → Bool) (env : PostEnv) :
    Nat → Nat → String → List String → Nat → (String × List String) × List Ev × Nat
  | _, p, latest, ups, 0 => ((latest, ups), [], p)
  | idx, p, latest, ups, remaining + 1 =>
    if ρ p = false then ((latest, ups), [Ev.poll .updatesLoop false], p + 1)
    else
      if env.fail_at idx then
        let (res, tr, p') := updatesLoop ρ env (idx + 1) (p + 1) latest ups remaining
        (res, Ev.poll .updatesLoop true :: tr, p')
      else if env.buttons_at idx ≤ idx then
        ((latest, ups), [Ev.poll .updatesLoop true], p + 1)
      else
        let content := strTake (pyStrip (env.content_at idx)) 200
        let date := pyStrip (env.date_at idx)
        let latest := if idx = 0 && date ≠ "" then date else latest
        let ups := if content ≠ "" then ups ++ ["[" ++ date ++ "] " ++ content] else ups
        let (res, tr, p') := updatesLoop ρ env (idx + 1) (p + 1) latest ups remaining
        (res, Ev.poll .updatesLoop true :: tr, p')

/-- `_get_latest_updates`: returns `(latest_date, joined updates)`. -/
def get_latest_updates (ρ : Nat → Bool) (p : Nat) (env : PostEnv) :
    (String × String) × List Ev × Nat :=
  if ρ p = false then (("", ""), [Ev.poll .updatesHead false], p + 1)
  else
    let n := min env.buttons0 5
    let ((latest, ups), tr, p') := updatesLoop ρ env 0 (p + 1) "" [] n
    ((latest, joinSep "\n---\n" (ups.take 5)), Ev.poll .updatesHead true :: tr, p')

/-! ## Detail extraction -/

/-- The 60-attempt title poll loop of `_extract_detail`: `none` when a stop
is observed (the caller returns "no record"), otherwise the first non-empty
stripped title (`some ""` when all 60 attempts stay empty). -/
def titleLoop (ρ : Nat → Bool) (d : DetailEnv) :
    Nat → Nat → Nat → Option String × List Ev × Nat
  | _, p, 0 => (some "", [], p)
  | i, p, remaining + 1 =>
    if ρ p = false then (none, [Ev.poll .titleLoop false], p + 1)
    else
      let t := pyStrip (d.title_at i)
      if t ≠ "" then (some t, [Ev.poll .titleLoop true], p + 1)
      else
        let (res, tr, p') := titleLoop ρ d (i + 1) (p + 1) remaining
        (res, Ev.poll .titleLoop true :: tr, p')

/-- `_extract_detail`: assembles the full record, returning `none` on a
missing title or whenever a stop is observed at one of its own checkpoints
(note: there is no checkpoint after `_get_latest_updates` — the record is
returned even when the stop arrived during the posts phase). -/
def extract_detail (ρ : Nat → Bool) (p : Nat) (kw : String) (d : DetailEnv) :
    Option Record × List Ev × Nat :=
  match titleLoop ρ d 0 p 60 with
  | (none, tr, p') => (none, tr, p')
  | (some title, tr, p1) =>
    if title = "" then (none, tr, p1)  -- `not title` short-circuits: no poll
    else if ρ p1 = false then (none, tr ++ [Ev.poll .afterTitle false], p1 + 1)
    else
      let tr := tr ++ [Ev.poll .afterTitle true]
      let review_count := extract_review_count d.review_label
      let rating := extract_rating review_count d.rating_text
      let category := pyStrip d.category_text
      let (address, phone, website) := extract_contact_info d.website_href d.info_texts
      if ρ (p1 + 1) = false then (none, tr ++ [Ev.poll .afterContact false], p1 + 2)
      else
        let tr := tr ++ [Ev.poll .afterContact true]
        let (photos, trP, p4) := get_photos ρ (p1 + 2) title d.photos_env
        if ρ p4 = false then (none, tr ++ trP ++ [Ev.poll .afterPhotos false], p4 + 1)
        else
          let tr := tr ++ trP ++ [Ev.poll .afterPhotos true]
          let ((reviews, owner_reply_count, total_review_checked, reply_ratio), trR, p6) :=
            get_reviews ρ (p4 + 1) d.tabs d.review_els
          if ρ p6 = false then (none, tr ++ trR ++ [Ev.poll .afterReviews false], p6 + 1)
          else
            let tr := tr ++ trR ++ [Ev.poll .afterReviews true]
            let ((latest_date, latest_content), trU, p8) :=
              get_latest_updates ρ (p6 + 1) d.posts_env
            (some { keyword := kw, title := title, rating := rating,
                    review_count := review_count, phone := phone, address := address,
                    website := website, category := category, latest_date := latest_date,
                    latest_content := latest_content, reviews := reviews, photos := photos,
                    owner_reply_count := owner_reply_count,
                    total_review_checked := total_review_checked,
                    reply_ratio := reply_ratio },
             tr ++ trU, p8)

/-! ## Result collection -/

/-- One `a.hfpxzc` result link: href, aria-label, and the text of the
`jHLihd` badge when one exists. -/
structure LinkEl where
  lhref : String := ""
  lname : String := ""
  badge : Option String := none
deriving DecidableEq, Repr

/-- Environment of `_collect_results`: whether the `div[role="feed"]` element
appears within its poll budget, the link list after each number of scroll
steps, and a bound on the number of `while` iterations observed (the Python
loop is unbounded when the count never stabilizes; `scroll_fuel` is the
modelling horizon). -/
structure CollectEnv where
  feed_found : Bool := true
  links_at : Nat → List LinkEl := fun _ => []
  scroll_fuel : Nat := 50

/-- `_get_result_links`: drop links whose badge contains `スポンサー`. -/
def resultLinks (ls : List LinkEl) : List LinkEl :=
  ls.filter (fun a =>
    match a.badge with
    | some t => !strContains t "スポンサー"
    | none => true)

/-- The scroll-stability loop of `_collect_results` (`while stable < 5`): the
condition is re-checked before the stop poll; each iteration scrolls once and
recounts.  Returns `(scrolls performed, events, next poll index)`. -/
def collectLoop (ρ : Nat → Bool) (env : CollectEnv) :
    Nat → Nat → Int → Nat → Nat → Nat × List Ev × Nat
  | n, p, _, _, 0 => (n, [], p)
  | n, p, prev, stable, fuel + 1 =>
    if 5 ≤ stable then (n, [], p)
    else if ρ p = false then (n, [Ev.poll .scrollLoop false], p + 1)
    else
      let cnt : Int := (resultLinks (env.links_at (n + 1))).length
      let stable' := if cnt = prev then stable + 1 else 0
      let (n', tr, p') := collectLoop ρ env (n + 1) (p + 1) cnt stable' fuel
      (n', Ev.poll .scrollLoop true :: tr, p')

/-- The final dedup-by-href collection of `_collect_results`. -/
def dedupCollect : List LinkEl → List String → List (String × String)
  | [], _ => []
  | a :: rest, seen =>
    let href := a.lhref
    let name := pyStrip a.lname
    if href = "" || seen.contains href then dedupCollect rest seen
    else (href, name) :: dedupCollect rest (href :: seen)

/-- `_collect_results`: empty list when the feed never appears (caught
`TimeoutException`); else scroll to stability, then dedup, drop sponsored,
cap at `MAX_STORES = 100`. -/
def collect_results (ρ : Nat → Bool) (p : Nat) (env : CollectEnv) :
    List (String × String) × List Ev × Nat :=
  if env.feed_found = false then ([], [], p)
  else
    let (n, tr, p') := collectLoop ρ env 0 p (-1) 0 env.scroll_fuel
    let final := resultLinks (env.links_at n)
    ((dedupCollect final []).take 100, tr, p')

/-! ## Keyword search and run -/

/-- Environment of one listing visit: whether `driver.get(href)` raises
(caught, the item is skipped), and the detail page. -/
structure ItemEnv where
  get_fails : Bool := false
  detail : DetailEnv := {}

/-- Environment of one keyword: whether `driver.get(search_url)` raises
(caught, the keyword is skipped), the results feed, and the detail
environment of each href. -/
structure KeywordEnv where
  search_get_fails : Bool := false
  collect : CollectEnv := {}
  item_of : String → ItemEnv := fun _ => {}

/-- The search URL built by `_search_keyword`. -/
def searchUrl (kw : String) : String :=
  "https://www.google.com/maps/search/" ++ strReplace kw " " "+" ++ "/"

/-- The dedup key of `_search_keyword`: `f"{data['title']}__{data['address']}"`. -/
def dedupKey (data : Record) : String := data.title ++ "__" ++ data.address

/-- The three head events of one item visit: checkpoint poll, progress
callback, navigation to the listing. -/
def itemHd (i total : Nat) (href : String) : List Ev :=
  [Ev.poll .itemLoop true, Ev.prog i total, Ev.nav href]

/-- The per-item loop of `_search_keyword`: poll, progress callback,
navigate (skip on caught failure), extract, dedup against the per-keyword
`seen` set, filter, then count and emit.  Returns `(accepted count so far,
events, next poll index)`. -/
def itemLoop (ρ : Nat → Bool) (env : KeywordEnv) (flt : Filters) (now : CivilD)
    (kw : String) (total : Nat) :
    List (String × String) → Nat → Nat → List String → Nat → Nat × List Ev × Nat
  | [], _, p, _, count => (count, [], p)
  | (href, _) :: rest, i, p, seen, count =>
    if ρ p = false then (count, [Ev.poll .itemLoop false], p + 1)
    else
      let hd := itemHd (i + 1) total href
      let it := env.item_of href
      if it.get_fails then
        let (c, tr, p') := itemLoop ρ env flt now kw total rest (i + 1) (p + 1) seen count
        (c, hd ++ tr, p')
      else
        match extract_detail ρ (p + 1) kw it.detail with
        | (none, trD, pD) =>
          let (c, tr, p') := itemLoop ρ env flt now kw total rest (i + 1) pD seen count
          (c, hd ++ trD ++ tr, p')
        | (some data, trD, pD) =>
          let key := dedupKey data
          if seen.contains key then
            let (c, tr, p') := itemLoop ρ env flt now kw total rest (i + 1) pD seen count
            (c, hd ++ trD ++ tr, p')
          else
            let seen' := key :: seen
            if apply_filters now data flt = false then
              let (c, tr, p') := itemLoop ρ env flt now kw total rest (i + 1) pD seen' count
              (c, hd ++ trD ++ tr, p')
            else
              let (c, tr, p') :=
                itemLoop ρ env flt now kw total rest (i + 1) pD seen' (count + 1)
              (c, hd ++ trD ++ [Ev.emit key] ++ tr, p')

/-- `_search_keyword`: navigate to the search URL (skip the keyword when the
navigation raises), collect results (a stop during collection still collects
what is on screen), then run the item loop with a fresh `seen` set. -/
def search_keyword (ρ : Nat → Bool) (p : Nat) (kw : String) (flt : Filters)
    (now : CivilD) (env : KeywordEnv) : Nat × List Ev × Nat :=
  let trNav := [Ev.nav (searchUrl kw)]
  if env.search_get_fails then (0, trNav, p)
  else
    let (results, trC, p1) := collect_results ρ p env.collect
    if results = [] then (0, trNav ++ trC, p1)
    else
      let (count, trI, p2) := itemLoop ρ env flt now kw results.length results 0 p1 [] 0
      (count, trNav ++ trC ++ trI, p2)

/-- The browser world of one `run`: whether `_init_browser` raises (uncaught
by `run`, whose `try` has only a `finally`), and the per-keyword
environments. -/
structure World where
  init_fails : Bool := false
  kw_env : String → KeywordEnv := fun _ => {}

/-- The keyword loop of `run`. -/
def kwLoopF (ρ : Nat → Bool) (w : World) (flt : Filters) (now : CivilD) :
    List String → Nat → Nat → Nat × List Ev × Nat
  | [], p, count => (count, [], p)
  | kw :: rest, p, count =>
    if ρ p = false then (count, [Ev.poll .kwLoop false], p + 1)
    else
      let (c, trS, p1) := search_keyword ρ (p + 1) kw flt now (w.kw_env kw)
      let (cr, tr, p') := kwLoopF ρ w flt now rest p1 (count + c)
      (cr, Ev.poll .kwLoop true :: trS ++ tr, p')

/-- `run(keywords, filters)`: launch the browser (an `Except.error` models the
uncaught launch exception propagating to the caller after the `finally`
closes the browser), iterate keywords, return the accepted count. -/
def run (ρ : Nat → Bool) (keywords : List String) (flt : Filters) (now : CivilD)
    (w : World) : List Ev × Except Unit Nat :=
  if w.init_fails then ([], Except.error ())
  else
    let (count, tr, _) := kwLoopF ρ w flt now keywords 0 0
    (tr, Except.ok count)

/-! ## Trace predicates -/

def isNav : Ev → Bool
  | .nav _ => true
  | _ => false

def isEmit : Ev → Bool
  | .emit _ => true
  | _ => false

def isPollEv : Ev → Bool
  | .poll _ _ => true
  | _ => false

def isPollFalse : Ev → Bool
  | .poll _ false => true
  | _ => false

/-- The cancellation checkpoints of the recent-posts phase — the only polls
after which the in-flight record is still emitted. -/
def isPostSite : Site → Bool
  | .updatesHead => true
  | .updatesLoop => true
  | _ => false

/-- A `false` observation at a non-posts checkpoint. -/
def isNPFalse : Ev → Bool
  | .poll s false => !isPostSite s
  | _ => false

def emitsCount (tr : List Ev) : Nat := tr.countP isEmit

def emittedKeys (tr : List Ev) : List String :=
  tr.filterMap (fun e => match e with | .emit k => some k | _ => none)

def NoNav (tr : List Ev) : Prop := ∀ e ∈ tr, isNav e = false

def NoEmit (tr : List Ev) : Prop := ∀ e ∈ tr, isEmit e = false

def HasF (tr : List Ev) : Bool := tr.any isPollFalse

def HasNPF (tr : List Ev) : Bool := tr.any isNPFalse

/-- After an observed `false` in the trace, no further navigation; after an
observed `false` at a non-posts checkpoint, no further emission either. -/
def Safe (tr : List Ev) : Prop :=
  ∀ pre suf, tr = pre ++ suf →
    (HasF pre = true → NoNav suf) ∧ (HasNPF pre = true → NoEmit suf)

def PollsOnly (tr : List Ev) : Prop := ∀ e ∈ tr, isPollEv e = true

/-- A monotone cancellation flag: once the predicate goes false it stays
false (`executor.stop()` sets `_stop_flag` and nothing clears it during a
run). -/
def MonoStop (ρ : Nat → Bool) : Prop := ∀ i, ρ (i + 1) = true → ρ i = true

/-! ## Concrete worlds for the examples -/

/-- The suffix of a trace after the first observed `false` poll. -/
def sufAfterFirstFalse : List Ev → Option (List Ev)
  | [] => none
  | e :: tr => if isPollFalse e then some tr else sufAfterFirstFalse tr

/-- A results feed holding a single listing link. -/
def oneLink : CollectEnv :=
  { links_at := fun _ => [{ lhref := "h1", lname := "N" }], scroll_fuel := 10 }

/-- A detail page whose title element reads `"T"` and everything else is
absent. -/
def dEnv : DetailEnv := { title_at := fun _ => "T" }

def kEnvC : KeywordEnv := { collect := oneLink, item_of := fun _ => { detail := dEnv } }

/-- A world where every keyword search finds the same single listing. -/
def w1 : World := { kw_env := fun _ => kEnvC }

/-- A world whose browser launch raises. -/
def wFail : World := { init_fails := true }

def d0 : CivilD := ⟨2026, 10, 12⟩

/-- A cancellation stream that turns (and stays) false from poll 15 on. -/
def c3rho : Nat → Bool := fun i => decide (i < 15)

/-! ## The exception-aware pipeline

Not every WebDriver call of the extraction path is guarded.  Inside
`_collect_results`' scroll-and-collect phase, `driver.execute_script`
(line 175), the `find_elements` of `_get_result_links` (line 214, called at
lines 178 and 191) and `get_attribute` (lines 193–194) have no enclosing
`try` anywhere up the chain, and neither do the `find_elements`/`el.text`
info-block reads of `_extract_contact_info` (lines 868–873): a
`WebDriverException` raised there propagates through `_search_keyword` and
out of `run`'s `try`/`finally`.  Every other driver call on the path is
guarded (`driver.get` at both sites, the title wait, the badge, category,
review-count, rating and website-button reads, and the bodies of
`_get_photos`, `_get_reviews` and `_get_latest_updates` are each wrapped in
`try`/`except`).  The functions below re-run the pipeline with exactly these
two failure points made fallible — `Except.error ()` models the propagating
exception — reusing the environments and the guarded sub-extractors of the
total model. -/

/-- Failures of the unguarded DOM operations of `_collect_results`:
`dom_fail_at n` raises at scroll iteration `n` (`execute_script` or the
link re-query), `final_fail` raises in the final collection pass
(`_get_result_links`/`get_attribute` after the loop). -/
structure CollectFail where
  dom_fail_at : Nat → Bool := fun _ => false
  final_fail : Bool := false

/-- Failure of the unguarded info-block reads of `_extract_contact_info`. -/
structure DetailFail where
  contact_fail : Bool := false

structure KeywordFail where
  collect : CollectFail := {}
  detail_of : String → DetailFail := fun _ => {}

structure WorldFail where
  kw_fail : String → KeywordFail := fun _ => {}

/-- The scroll-stability loop with the per-iteration unguarded DOM block
(`execute_script` + link re-query, lines 175–178, adjacent with nothing
observable between them) as one fallible step, placed as in the source:
after the stop check, before the count update. -/
def collectLoopE (ρ : Nat → Bool) (env : CollectEnv) (cf : CollectFail) :
    Nat → Nat → Int → Nat → Nat → Except Unit (Nat × Nat)
  | n, p, _, _, 0 => .ok (n, p)
  | n, p, prev, stable, fuel + 1 =>
    if 5 ≤ stable then .ok (n, p)
    else if ρ p = false then .ok (n, p + 1)
    else if cf.dom_fail_at n then .error ()
    else
      let cnt : Int := (resultLinks (env.links_at (n + 1))).length
      let stable' := if cnt = prev then stable + 1 else 0
      collectLoopE ρ env cf (n + 1) (p + 1) cnt stable' fuel

/-- `_collect_results` with the unguarded failure points.  The final
collection pass runs (and can raise) after the loop whether it ended by
stability or by a stop-break, exactly as in the source. -/
def collect_resultsE (ρ : Nat → Bool) (p : Nat) (env : CollectEnv)
    (cf : CollectFail) : Except Unit (List (String × String) × Nat) :=
  if env.feed_found = false then .ok ([], p)
  else
    match collectLoopE ρ env cf 0 p (-1) 0 env.scroll_fuel with
    | .error () => .error ()
    | .ok (n, p') =>
      if cf.final_fail then .error ()
      else .ok ((dedupCollect (resultLinks (env.links_at n)) []).take 100, p')

/-- `_extract_detail` with the `_extract_contact_info` call (line 275)
fallible, placed as in the source: after the title phase, before the
post-contact stop check. -/
def extract_detailE (ρ : Nat → Bool) (p : Nat) (kw : String) (d : DetailEnv)
    (df : DetailFail) : Except Unit (Option Record × Nat) :=
  match titleLoop ρ d 0 p 60 with
  | (none, _, p') => .ok (none, p')
  | (some title, _, p1) =>
    if title = "" then .ok (none, p1)
    else if ρ p1 = false then .ok (none, p1 + 1)
    else
      let review_count := extract_review_count d.review_label
      let rating := extract_rating review_count d.rating_text
      let category := pyStrip d.category_text
      if df.contact_fail then .error ()
      else
        let (address, phone, website) := extract_contact_info d.website_href d.info_texts
        if ρ (p1 + 1) = false then .ok (none, p1 + 2)
        else
          let (photos, _, p4) := get_photos ρ (p1 + 2) title d.photos_env
          if ρ p4 = false then .ok (none, p4 + 1)
          else
            let ((reviews, owner_reply_count, total_review_checked, reply_ratio), _, p6) :=
              get_reviews ρ (p4 + 1) d.tabs d.review_els
            if ρ p6 = false then .ok (none, p6 + 1)
            else
              let ((latest_date, latest_content), _, p8) :=
                get_latest_updates ρ (p6 + 1) d.posts_env
              .ok (some { keyword := kw, title := title, rating := rating,
                          review_count := review_count, phone := phone, address := address,
                          website := website, category := category,
                          latest_date := latest_date, latest_content := latest_content,
                          reviews := reviews, photos := photos,
                          owner_reply_count := owner_reply_count,
                          total_review_checked := total_review_checked,
                          reply_ratio := reply_ratio }, p8)

/-- The per-item loop with fallible detail extraction: a caught `driver.get`
failure skips the item, a contact-info failure propagates. -/
def itemLoopE (ρ : Nat → Bool) (env : KeywordEnv) (kf : KeywordFail)
    (flt : Filters) (now : CivilD) (kw : String) (total : Nat) :
    List (String × String) → Nat → Nat → List String → Nat → Except Unit (Nat × Nat)
  | [], _, p, _, count => .ok (count, p)
  | (href, _) :: rest, i, p, seen, count =>
    if ρ p = false then .ok (count, p + 1)
    else
      let it := env.item_of href
      if it.get_fails then
        itemLoopE ρ env kf flt now kw total rest (i + 1) (p + 1) seen count
      else
        match extract_detailE ρ (p + 1) kw it.detail (kf.detail_of href) with
        | .error () => .error ()
        | .ok (none, pD) => itemLoopE ρ env kf flt now kw total rest (i + 1) pD seen count
        | .ok (some data, pD) =>
          let key := dedupKey data
          if seen.contains key then
            itemLoopE ρ env kf flt now kw total rest (i + 1) pD seen count
          else if apply_filters now data flt = false then
            itemLoopE ρ env kf flt now kw total rest (i + 1) pD (key :: seen) count
          else
            itemLoopE ρ env kf flt now kw total rest (i + 1) pD (key :: seen) (count + 1)

/-- `_search_keyword` with the unguarded failure points: a caught
`driver.get` failure skips the keyword, collection and contact-info
failures propagate. -/
def search_keywordE (ρ : Nat → Bool) (p : Nat) (kw : String) (flt : Filters)
    (now : CivilD) (env : KeywordEnv) (kf : KeywordFail) : Except Unit (Nat × Nat) :=
  if env.search_get_fails then .ok (0, p)
  else
    match collect_resultsE ρ p env.collect kf.collect with
    | .error () => .error ()
    | .ok (results, p1) =>
      if results = [] then .ok (0, p1)
      else itemLoopE ρ env kf flt now kw results.length results 0 p1 [] 0

/-- The keyword loop of `run` over the fallible pipeline. -/
def kwLoopE (ρ : Nat → Bool) (w : World) (wf : WorldFail) (flt : Filters)
    (now : CivilD) : List String → Nat → Nat → Except Unit Nat
  | [], _, count => .ok count
  | kw :: rest, p, count =>
    if ρ p = false then .ok count
    else
      match search_keywordE ρ (p + 1) kw flt now (w.kw_env kw) (wf.kw_fail kw) with
      | .error () => .error ()
      | .ok (c, p1) => kwLoopE ρ w wf flt now rest p1 (count + c)

/-- `run` over the fallible pipeline: a launch failure and any unguarded
DOM failure reached propagate as `Except.error ()`. -/
def runE (ρ : Nat → Bool) (keywords : List String) (flt : Filters)
    (now : CivilD) (w : World) (wf : WorldFail) : Except Unit Nat :=
  if w.init_fails then .error ()
  else kwLoopE ρ w wf flt now keywords 0 0

/-- No unguarded DOM operation of one keyword's visit raises. -/
def kwFailFree (kf : KeywordFail) : Prop :=
  (∀ n, kf.collect.dom_fail_at n = false) ∧ kf.collect.final_fail = false ∧
  ∀ href, (kf.detail_of href).contact_fail = false

/-- No unguarded DOM operation of the run raises. -/
def worldFailFree (wf : WorldFail) : Prop := ∀ kw, kwFailFree (wf.kw_fail kw)

/-- A run whose first scroll iteration's `execute_script` raises. -/
def wfDom : WorldFail :=
  { kw_fail := fun _ => { collect := { dom_fail_at := fun _ => true } } }

/-- A run where `_extract_contact_info`'s info-block read raises. -/
def wfContact : WorldFail :=
  { kw_fail := fun _ => { detail_of := fun _ => { contact_fail := true } } }

/-! # Lemmas -/

/-! ## Stable sorting and first-seen extrema -/

theorem stableSortBy_ne_nil {key : α → Nat} {l : List α} (h : l ≠ []) :
    stableSortBy key l ≠ [] := by
  cases l with
  | nil => exact absurd rfl h
  | cons x xs =>
    show insAsc key x (stableSortBy key xs) ≠ []
    cases stableSortBy key xs with
    | nil => simp [insAsc]
    | cons y ys =>
      simp only [insAsc]
      split <;> simp

theorem firstMinBy_isSome {key : α → Nat} {l : List α} (h : l ≠ []) :
    (firstMinBy key l).isSome := by
  cases l with
  | nil => exact absurd rfl h
  | cons x xs =>
    simp only [firstMinBy]
    cases firstMinBy key xs with
    | none => simp
    | some m => simp only; split <;> simp

theorem firstMinBy_mem {key : α → Nat} :
    ∀ {l : List α} {m : α}, firstMinBy key l = some m → m ∈ l := by
  intro l
  induction l with
  | nil => intro m h; simp [firstMinBy] at h
  | cons x xs ih =>
    intro m h
    simp only [firstMinBy] at h
    revert h
    match hm : firstMinBy key xs with
    | none => intro h; simp at h; simp [h.symm]
    | some m' =>
      intro h
      simp only at h
      split at h
      · simp at h; simp [h.symm]
      · simp at h
        exact List.mem_cons_of_mem x (h ▸ ih hm)

theorem firstMinBy_cons_ne_none {key : α → Nat} {x : α} {xs : List α} :
    firstMinBy key (x :: xs) ≠ none := by
  have := @firstMinBy_isSome _ key (x :: xs) (by simp)
  intro h
  rw [h] at this
  simp at this

theorem firstMinBy_min {key : α → Nat} :
    ∀ {l : List α} {m : α}, firstMinBy key l = some m → ∀ u ∈ l, key m ≤ key u := by
  intro l
  induction l with
  | nil => intro m h; simp [firstMinBy] at h
  | cons x xs ih =>
    intro m h u hu
    rw [show firstMinBy key (x :: xs) =
          (match firstMinBy key xs with
           | none => some x
           | some m => if key x ≤ key m then some x else some m) from rfl] at h
    rcases hm : firstMinBy key xs with _ | m'
    · rw [hm] at h
      simp only [Option.some.injEq] at h
      subst h
      cases xs with
      | nil =>
        rcases List.mem_singleton.mp hu with rfl
        exact le_refl _
      | cons a as => exact absurd hm firstMinBy_cons_ne_none
    · rw [hm] at h
      simp only at h
      by_cases hk : key x ≤ key m'
      · rw [if_pos hk] at h
        simp only [Option.some.injEq] at h
        subst h
        rcases List.mem_cons.mp hu with rfl | hu'
        · exact le_refl _
        · exact le_trans hk (ih hm u hu')
      · rw [if_neg hk] at h
        simp only [Option.some.injEq] at h
        subst h
        rcases List.mem_cons.mp hu with rfl | hu'
        · omega
        · exact ih hm u hu'

theorem insAsc_head {key : α → Nat} (d x y : α) (ys : List α) :
    (insAsc key x (y :: ys)).headD d =
      if key x ≤ key y then x else y := by
  simp only [insAsc]
  split <;> simp

theorem stableSortBy_head_eq_firstMinBy {key : α → Nat} (d : α) :
    ∀ {l : List α}, l ≠ [] →
      (stableSortBy key l).headD d = (firstMinBy key l).getD d := by
  intro l
  induction l with
  | nil => intro h; exact absurd rfl h
  | cons x xs ih =>
    intro _
    show (insAsc key x (stableSortBy key xs)).headD d = _
    cases xs with
    | nil => simp [stableSortBy, insAsc, firstMinBy]
    | cons a as =>
      rcases hs : stableSortBy key (a :: as) with _ | ⟨y, ys⟩
      · exact absurd hs (stableSortBy_ne_nil (by simp))
      · have ihv : y = (firstMinBy key (a :: as)).getD d := by
          have h2 := ih (by simp)
          rw [hs] at h2
          simpa using h2
        rcases hm : firstMinBy key (a :: as) with _ | m
        · exact absurd hm firstMinBy_cons_ne_none
        · rw [hm] at ihv
          simp only [Option.getD_some] at ihv
          subst ihv
          rw [insAsc_head]
          rw [show firstMinBy key (x :: a :: as) =
                (match firstMinBy key (a :: as) with
                 | none => some x
                 | some m => if key x ≤ key m then some x else some m) from rfl, hm]
          split
          · rename_i hxy
            simp only [if_pos hxy, Option.getD_some]
          · rename_i hxy
            simp only [if_neg hxy, Option.getD_some]

theorem stableSortDescBy_ne_nil {key : α → Nat} {l : List α} (h : l ≠ []) :
    stableSortDescBy key l ≠ [] := by
  cases l with
  | nil => exact absurd rfl h
  | cons x xs =>
    show insDesc key x (stableSortDescBy key xs) ≠ []
    cases stableSortDescBy key xs with
    | nil => simp [insDesc]
    | cons y ys =>
      simp only [insDesc]
      split <;> simp

theorem firstMaxBy_isSome {key : α → Nat} {l : List α} (h : l ≠ []) :
    (firstMaxBy key l).isSome := by
  cases l with
  | nil => exact absurd rfl h
  | cons x xs =>
    simp only [firstMaxBy]
    cases firstMaxBy key xs with
    | none => simp
    | some m => simp only; split <;> simp

theorem firstMaxBy_cons_ne_none {key : α → Nat} {x : α} {xs : List α} :
    firstMaxBy key (x :: xs) ≠ none := by
  have := @firstMaxBy_isSome _ key (x :: xs) (by simp)
  intro h
  rw [h] at this
  simp at this

theorem firstMaxBy_mem {key : α → Nat} :
    ∀ {l : List α} {m : α}, firstMaxBy key l = some m → m ∈ l := by
  intro l
  induction l with
  | nil => intro m h; simp [firstMaxBy] at h
  | cons x xs ih =>
    intro m h
    simp only [firstMaxBy] at h
    revert h
    match hm : firstMaxBy key xs with
    | none => intro h; simp at h; simp [h.symm]
    | some m' =>
      intro h
      simp only at h
      split at h
      · simp at h; simp [h.symm]
      · simp at h
        exact List.mem_cons_of_mem x (h ▸ ih hm)

theorem firstMaxBy_max {key : α → Nat} :
    ∀ {l : List α} {m : α}, firstMaxBy key l = some m → ∀ u ∈ l, key u ≤ key m := by
  intro l
  induction l with
  | nil => intro m h; simp [firstMaxBy] at h
  | cons x xs ih =>
    intro m h u hu
    rw [show firstMaxBy key (x :: xs) =
          (match firstMaxBy key xs with
           | none => some x
           | some m => if key m ≤ key x then some x else some m) from rfl] at h
    rcases hm : firstMaxBy key xs with _ | m'
    · rw [hm] at h
      simp only [Option.some.injEq] at h
      subst h
      cases xs with
      | nil =>
        rcases List.mem_singleton.mp hu with rfl
        exact le_refl _
      | cons a as => exact absurd hm firstMaxBy_cons_ne_none
    · rw [hm] at h
      simp only at h
      by_cases hk : key m' ≤ key x
      · rw [if_pos hk] at h
        simp only [Option.some.injEq] at h
        subst h
        rcases List.mem_cons.mp hu with rfl | hu'
        · exact le_refl _
        · exact le_trans (ih hm u hu') hk
      · rw [if_neg hk] at h
        simp only [Option.some.injEq] at h
        subst h
        rcases List.mem_cons.mp hu with rfl | hu'
        · omega
        · exact ih hm u hu'

theorem insDesc_head {key : α → Nat} (d x y : α) (ys : List α) :
    (insDesc key x (y :: ys)).headD d =
      if key y ≤ key x then x else y := by
  simp only [insDesc]
  split <;> simp

theorem stableSortDescBy_head_eq_firstMaxBy {key : α → Nat} (d : α) :
    ∀ {l : List α}, l ≠ [] →
      (stableSortDescBy key l).headD d = (firstMaxBy key l).getD d := by
  intro l
  induction l with
  | nil => intro h; exact absurd rfl h
  | cons x xs ih =>
    intro _
    show (insDesc key x (stableSortDescBy key xs)).headD d = _
    cases xs with
    | nil => simp [stableSortDescBy, insDesc, firstMaxBy]
    | cons a as =>
      rcases hs : stableSortDescBy key (a :: as) with _ | ⟨y, ys⟩
      · exact absurd hs (stableSortDescBy_ne_nil (by simp))
      · have ihv : y = (firstMaxBy key (a :: as)).getD d := by
          have h2 := ih (by simp)
          rw [hs] at h2
          simpa using h2
        rcases hm : firstMaxBy key (a :: as) with _ | m
        · exact absurd hm firstMaxBy_cons_ne_none
        · rw [hm] at ihv
          simp only [Option.getD_some] at ihv
          subst ihv
          rw [insDesc_head]
          rw [show firstMaxBy key (x :: a :: as) =
                (match firstMaxBy key (a :: as) with
                 | none => some x
                 | some m => if key m ≤ key x then some x else some m) from rfl, hm]
          split
          · rename_i hxy
            simp only [if_pos hxy, Option.getD_some]
          · rename_i hxy
            simp only [if_neg hxy, Option.getD_some]

/-! ## Website selection -/

theorem cleaned_no_claim {urls : List String} :
    ∀ u ∈ cleanedCandidates urls, is_claim_link u = false := by
  intro u hu
  have hb := (List.mem_filter.mp hu).2
  simp only [Bool.and_eq_true, Bool.not_eq_true'] at hb
  exact hb.2

theorem pick_best_url_eq_firstMin {urls : List String}
    (h : cleanedCandidates urls ≠ []) :
    pick_best_url urls = (firstMinBy sortKeyU (cleanedCandidates urls)).getD "" := by
  have hu : urls ≠ [] := by
    intro h0
    subst h0
    simp [cleanedCandidates] at h
  simp only [pick_best_url]
  rw [if_neg hu, if_neg h]
  exact stableSortBy_head_eq_firstMinBy "" h

theorem pick_best_url_empty {urls : List String}
    (h : cleanedCandidates urls = []) : pick_best_url urls = "" := by
  simp [pick_best_url, h]

theorem pick_best_url_mem {urls : List String}
    (h : cleanedCandidates urls ≠ []) :
    pick_best_url urls ∈ cleanedCandidates urls := by
  rw [pick_best_url_eq_firstMin h]
  rcases hm : firstMinBy sortKeyU (cleanedCandidates urls) with _ | m
  · rcases hc : cleanedCandidates urls with _ | ⟨a, as⟩
    · exact absurd hc h
    · rw [hc] at hm
      exact absurd hm firstMinBy_cons_ne_none
  · simpa using firstMinBy_mem hm

/-! ## Generic lemmas about the predicates -/

theorem mono_true_le {ρ : Nat → Bool} (hm : MonoStop ρ) :
    ∀ {i j : Nat}, i ≤ j → ρ j = true → ρ i = true := by
  intro i j hij
  induction hij with
  | refl => exact id
  | step _ ih => intro h; exact ih (hm _ h)

theorem mono_false_le {ρ : Nat → Bool} (hm : MonoStop ρ) {i j : Nat}
    (hij : i ≤ j) (hf : ρ i = false) : ρ j = false := by
  cases hj : ρ j with
  | false => rfl
  | true => rw [mono_true_le hm hij hj] at hf; exact hf

theorem isPollFalse_of_NPFalse {e : Ev} (h : isNPFalse e = true) : isPollFalse e = true := by
  cases e with
  | poll s b => cases b <;> simp_all [isNPFalse, isPollFalse]
  | _ => simp [isNPFalse] at h

theorem noNav_of_pollsOnly {tr : List Ev} (h : PollsOnly tr) : NoNav tr := by
  intro e he
  have := h e he
  cases e <;> simp_all [isPollEv, isNav]

theorem noEmit_of_pollsOnly {tr : List Ev} (h : PollsOnly tr) : NoEmit tr := by
  intro e he
  have := h e he
  cases e <;> simp_all [isPollEv, isEmit]

theorem noNav_append {a b : List Ev} (ha : NoNav a) (hb : NoNav b) : NoNav (a ++ b) := by
  intro e he
  rcases List.mem_append.mp he with h | h
  · exact ha e h
  · exact hb e h

theorem noEmit_append {a b : List Ev} (ha : NoEmit a) (hb : NoEmit b) :
    NoEmit (a ++ b) := by
  intro e he
  rcases List.mem_append.mp he with h | h
  · exact ha e h
  · exact hb e h

theorem pollsOnly_append {a b : List Ev} (ha : PollsOnly a) (hb : PollsOnly b) :
    PollsOnly (a ++ b) := by
  intro e he
  rcases List.mem_append.mp he with h | h
  · exact ha e h
  · exact hb e h

theorem hasF_append {a b : List Ev} : HasF (a ++ b) = (HasF a || HasF b) :=
  List.any_append

theorem pollsOnly_of_all {tr : List Ev} (h : tr.all isPollEv = true) : PollsOnly tr :=
  fun e he => List.all_eq_true.mp h e he

theorem all_of_pollsOnly {tr : List Ev} (h : PollsOnly tr) : tr.all isPollEv = true :=
  List.all_eq_true.mpr h

theorem safe_of_pollsOnly {tr : List Ev} (h : PollsOnly tr) : Safe tr := by
  intro pre suf heq
  have hsuf : PollsOnly suf := by
    intro e he
    exact h e (heq ▸ List.mem_append_right pre he)
  exact ⟨fun _ => noNav_of_pollsOnly hsuf, fun _ => noEmit_of_pollsOnly hsuf⟩

theorem safe_of_hasF_false {tr : List Ev} (h : HasF tr = false) : Safe tr := by
  intro pre suf heq
  constructor
  · intro hp
    exfalso
    rw [heq, hasF_append, hp] at h
    simp at h
  · intro hp
    exfalso
    have hpf : HasF pre = true := by
      rcases List.any_eq_true.mp hp with ⟨e, he, hne⟩
      exact List.any_eq_true.mpr ⟨e, he, isPollFalse_of_NPFalse hne⟩
    rw [heq, hasF_append, hpf] at h
    simp at h

theorem safe_tail {e : Ev} {tr : List Ev} (h : Safe (e :: tr)) : Safe tr := by
  intro pre suf heq
  have := h (e :: pre) suf (by simp [heq])
  constructor
  · intro hp
    exact this.1 (by simp [HasF] at hp ⊢; exact Or.inr hp)
  · intro hp
    exact this.2 (by simp [HasNPF] at hp ⊢; exact Or.inr hp)

theorem safe_cons {e : Ev} {tr : List Ev} (h : Safe tr)
    (hnav : isPollFalse e = true → NoNav tr)
    (hemit : isNPFalse e = true → NoEmit tr) : Safe (e :: tr) := by
  intro pre suf heq
  cases pre with
  | nil =>
    constructor
    · intro hp; simp [HasF] at hp
    · intro hp; simp [HasNPF] at hp
  | cons e' pre' =>
    have he' : e' = e := by
      have := congrArg (List.headD · e) heq
      simpa using this.symm
    subst he'
    have heq' : tr = pre' ++ suf := by
      have := congrArg List.tail heq
      simpa using this
    have hs := h pre' suf heq'
    constructor
    · intro hp
      simp only [HasF, List.any_cons, Bool.or_eq_true] at hp
      rcases hp with hp | hp
      · intro x hx
        exact hnav hp x (heq' ▸ List.mem_append_right pre' hx)
      · exact hs.1 hp
    · intro hp
      simp only [HasNPF, List.any_cons, Bool.or_eq_true] at hp
      rcases hp with hp | hp
      · intro x hx
        exact hemit hp x (heq' ▸ List.mem_append_right pre' hx)
      · exact hs.2 hp

theorem safe_append {a b : List Ev} (ha : Safe a) (hb : Safe b)
    (h1 : HasF a = true → NoNav b ∧ NoEmit b) : Safe (a ++ b) := by
  induction a with
  | nil => simpa using hb
  | cons e a' ih =>
    rw [List.cons_append]
    have ha' : Safe a' := safe_tail ha
    have hstep := ha [e] a' rfl
    apply safe_cons
    · exact ih ha' (fun hf => h1 (by simp [HasF] at hf ⊢; exact Or.inr hf))
    · intro hf
      have hna' : NoNav a' := hstep.1 (by simp [HasF, hf])
      have hnb : NoNav b := (h1 (by simp [HasF, hf])).1
      exact noNav_append hna' hnb
    · intro hf
      have hea' : NoEmit a' := hstep.2 (by simp [HasNPF, hf])
      have heb : NoEmit b := (h1 (by simp [HasF, isPollFalse_of_NPFalse hf])).2
      exact noEmit_append hea' heb

theorem safe_pollsOnly_emit {trD : List Ev} {k : String} (h : PollsOnly trD)
    (hnp : HasNPF trD = false) : Safe (trD ++ [Ev.emit k]) := by
  induction trD with
  | nil =>
    apply safe_of_hasF_false
    simp [HasF, isPollFalse]
  | cons e tr' ih =>
    rw [List.cons_append]
    have hnp' : HasNPF tr' = false := by
      simp only [HasNPF, List.any_cons, Bool.or_eq_false_iff] at hnp
      exact hnp.2
    have hnpe : isNPFalse e = false := by
      simp only [HasNPF, List.any_cons, Bool.or_eq_false_iff] at hnp
      exact hnp.1
    apply safe_cons (ih (fun x hx => h x (by simp [hx])) hnp')
    · intro _
      apply noNav_append (noNav_of_pollsOnly (fun x hx => h x (by simp [hx])))
      intro x hx
      simp at hx
      simp [hx, isNav]
    · intro hf
      rw [hnpe] at hf
      exact absurd hf (by simp)

theorem emitsCount_append {a b : List Ev} :
    emitsCount (a ++ b) = emitsCount a + emitsCount b := by
  simp [emitsCount, List.countP_append]

theorem emitsCount_of_pollsOnly {tr : List Ev} (h : PollsOnly tr) : emitsCount tr = 0 := by
  simp only [emitsCount, List.countP_eq_zero]
  intro e he
  have := noEmit_of_pollsOnly h e he
  simp [this]

theorem emittedKeys_of_pollsOnly {tr : List Ev} (h : PollsOnly tr) : emittedKeys tr = [] := by
  simp only [emittedKeys, List.filterMap_eq_nil_iff]
  intro e he
  have := h e he
  cases e <;> simp_all [isPollEv]

theorem hasNPF_append {a b : List Ev} : HasNPF (a ++ b) = (HasNPF a || HasNPF b) :=
  List.any_append

theorem hasF_cons_true {s : Site} {tr : List Ev} :
    HasF (Ev.poll s true :: tr) = HasF tr := by
  show (isPollFalse (Ev.poll s true) || HasF tr) = HasF tr
  simp [isPollFalse]

theorem hasNPF_false_of_hasF {tr : List Ev} (h : HasF tr = false) : HasNPF tr = false := by
  cases hn : HasNPF tr with
  | false => rfl
  | true =>
    exfalso
    rcases List.any_eq_true.mp hn with ⟨e, he, hne⟩
    have h2 : HasF tr = true := List.any_eq_true.mpr ⟨e, he, isPollFalse_of_NPFalse hne⟩
    rw [h2] at h
    exact absurd h (by simp)

/-! ## Per-function facts: polls-only traces, poll-index growth, and the
stream being false at exit after an observed false -/

theorem titleLoop_facts (ρ : Nat → Bool) (d : DetailEnv) :
    ∀ (r i p : Nat),
      PollsOnly (titleLoop ρ d i p r).2.1 ∧
      p ≤ (titleLoop ρ d i p r).2.2 ∧
      (MonoStop ρ → HasF (titleLoop ρ d i p r).2.1 = true →
        ρ (titleLoop ρ d i p r).2.2 = false) := by
  intro r
  induction r with
  | zero =>
    intro i p
    refine ⟨?_, le_refl _, ?_⟩ <;> simp [titleLoop, PollsOnly, HasF]
  | succ r ih =>
    intro i p
    simp only [titleLoop]
    by_cases hρ : ρ p = false
    · rw [if_pos hρ]
      refine ⟨by simp [PollsOnly, isPollEv], Nat.le_succ p, ?_⟩
      intro hm _
      exact mono_false_le hm (Nat.le_succ p) hρ
    · rw [if_neg hρ]
      by_cases ht : pyStrip (d.title_at i) ≠ ""
      · rw [if_pos ht]
        refine ⟨by simp [PollsOnly, isPollEv], Nat.le_succ p, ?_⟩
        intro _ hf
        simp [HasF, isPollFalse] at hf
      · rw [if_neg ht]
        rcases hrec : titleLoop ρ d (i + 1) (p + 1) r with ⟨res, tr, p'⟩
        have hfacts := ih (i + 1) (p + 1)
        rw [hrec] at hfacts
        simp only
        refine ⟨?_, le_trans (Nat.le_succ p) hfacts.2.1, ?_⟩
        · intro e he
          rcases List.mem_cons.mp he with rfl | he'
          · rfl
          · exact hfacts.1 e he'
        · intro hm hf
          rw [hasF_cons_true] at hf
          exact hfacts.2.2 hm hf

theorem photoScrollLoop_facts (ρ : Nat → Bool) (env : PhotosEnv) :
    ∀ (fuel i p prev stable : Nat),
      PollsOnly (photoScrollLoop ρ env i p prev stable fuel).1 ∧
      p ≤ (photoScrollLoop ρ env i p prev stable fuel).2.1 ∧
      (MonoStop ρ → HasF (photoScrollLoop ρ env i p prev stable fuel).1 = true →
        ρ (photoScrollLoop ρ env i p prev stable fuel).2.1 = false) := by
  intro fuel
  induction fuel with
  | zero =>
    intro i p prev stable
    refine ⟨?_, le_refl _, ?_⟩ <;> simp [photoScrollLoop, PollsOnly, HasF]
  | succ fuel ih =>
    intro i p prev stable
    simp only [photoScrollLoop]
    by_cases hρ : ρ p = false
    · rw [if_pos hρ]
      refine ⟨by simp [PollsOnly, isPollEv], Nat.le_succ p, ?_⟩
      intro hm _
      exact mono_false_le hm (Nat.le_succ p) hρ
    · rw [if_neg hρ]
      by_cases hcnt : env.thumbs_at i = prev
      · rw [if_pos hcnt]
        by_cases hst : 2 ≤ stable
        · rw [if_pos hst]
          refine ⟨by simp [PollsOnly, isPollEv], Nat.le_succ p, ?_⟩
          intro _ hf
          simp [HasF, isPollFalse] at hf
        · rw [if_neg hst]
          rcases hrec : photoScrollLoop ρ env (i + 1) (p + 1) (env.thumbs_at i)
            (stable + 1) fuel with ⟨tr, p', ab⟩
          have hfacts := ih (i + 1) (p + 1) (env.thumbs_at i) (stable + 1)
          rw [hrec] at hfacts
          simp only
          refine ⟨?_, le_trans (Nat.le_succ p) hfacts.2.1, ?_⟩
          · intro e he
            rcases List.mem_cons.mp he with rfl | he'
            · rfl
            · exact hfacts.1 e he'
          · intro hm hf
            rw [hasF_cons_true] at hf
            exact hfacts.2.2 hm hf
      · rw [if_neg hcnt]
        rcases hrec : photoScrollLoop ρ env (i + 1) (p + 1) (env.thumbs_at i) 0 fuel
          with ⟨tr, p', ab⟩
        have hfacts := ih (i + 1) (p + 1) (env.thumbs_at i) 0
        rw [hrec] at hfacts
        simp only
        refine ⟨?_, le_trans (Nat.le_succ p) hfacts.2.1, ?_⟩
        · intro e he
          rcases List.mem_cons.mp he with rfl | he'
          · rfl
          · exact hfacts.1 e he'
        · intro hm hf
          rw [hasF_cons_true] at hf
          exact hfacts.2.2 hm hf

theorem photoLoop_facts (ρ : Nat → Bool) (env : PhotosEnv) (names : List String) :
    ∀ (remaining i p own usr : Nat) (dates : List String),
      PollsOnly (photoLoop ρ env names i p own usr dates remaining).2.1 ∧
      p ≤ (photoLoop ρ env names i p own usr dates remaining).2.2 ∧
      (MonoStop ρ → HasF (photoLoop ρ env names i p own usr dates remaining).2.1 = true →
        ρ (photoLoop ρ env names i p own usr dates remaining).2.2 = false) := by
  intro remaining
  induction remaining with
  | zero =>
    intro i p own usr dates
    refine ⟨?_, le_refl _, ?_⟩ <;> simp [photoLoop, PollsOnly, HasF]
  | succ r ih =>
    intro i p own usr dates
    simp only [photoLoop]
    by_cases hρ : ρ p = false
    · rw [if_pos hρ]
      refine ⟨by simp [PollsOnly, isPollEv], Nat.le_succ p, ?_⟩
      intro hm _
      exact mono_false_le hm (Nat.le_succ p) hρ
    · rw [if_neg hρ]
      by_cases hbreak : (pyStrip (env.view_at i).pauthor = "" &&
          (match ymSearchStr (pyStripL (env.view_at i).pdate.data) with
            | some d => d
            | none => "") = "") = true
      · rw [if_pos hbreak]
        refine ⟨by simp [PollsOnly, isPollEv], Nat.le_succ p, ?_⟩
        intro _ hf
        simp [HasF, isPollFalse] at hf
      · rw [if_neg hbreak]
        by_cases hr : r = 0
        · rw [if_pos hr]
          refine ⟨by simp [PollsOnly, isPollEv], Nat.le_succ p, ?_⟩
          intro _ hf
          simp [HasF, isPollFalse] at hf
        · rw [if_neg hr]
          by_cases hnx : (env.view_at i).can_next = true
          · rw [if_pos hnx]
            rcases hrec : photoLoop ρ env names (i + 1) (p + 1)
                (if (if pyStrip (env.view_at i).pauthor ≠ "" then
                      classifyOwner names (pyStrip (env.view_at i).pauthor)
                    else false) = true then own + 1 else own)
                (if (if pyStrip (env.view_at i).pauthor ≠ "" then
                      classifyOwner names (pyStrip (env.view_at i).pauthor)
                    else false) = true then usr else usr + 1)
                (if (match ymSearchStr (pyStripL (env.view_at i).pdate.data) with
                      | some d => d
                      | none => "") ≠ "" then
                    dates ++ [(match ymSearchStr (pyStripL (env.view_at i).pdate.data) with
                      | some d => d
                      | none => "")]
                  else dates) r with ⟨res, tr, p'⟩
            have hfacts := ih (i + 1) (p + 1)
                (if (if pyStrip (env.view_at i).pauthor ≠ "" then
                      classifyOwner names (pyStrip (env.view_at i).pauthor)
                    else false) = true then own + 1 else own)
                (if (if pyStrip (env.view_at i).pauthor ≠ "" then
                      classifyOwner names (pyStrip (env.view_at i).pauthor)
                    else false) = true then usr else usr + 1)
                (if (match ymSearchStr (pyStripL (env.view_at i).pdate.data) with
                      | some d => d
                      | none => "") ≠ "" then
                    dates ++ [(match ymSearchStr (pyStripL (env.view_at i).pdate.data) with
                      | some d => d
                      | none => "")]
                  else dates)
            rw [hrec] at hfacts
            simp only [hrec]
            refine ⟨?_, le_trans (Nat.le_succ p) hfacts.2.1, ?_⟩
            · intro e he
              rcases List.mem_cons.mp he with rfl | he'
              · rfl
              · exact hfacts.1 e he'
            · intro hm hf
              rw [hasF_cons_true] at hf
              exact hfacts.2.2 hm hf
          · rw [if_neg hnx]
            refine ⟨by simp [PollsOnly, isPollEv], Nat.le_succ p, ?_⟩
            intro _ hf
            simp [HasF, isPollFalse] at hf

theorem updatesLoop_facts (ρ : Nat → Bool) (env : PostEnv) :
    ∀ (remaining idx p : Nat) (latest : String) (ups : List String),
      PollsOnly (updatesLoop ρ env idx p latest ups remaining).2.1 ∧
      p ≤ (updatesLoop ρ env idx p latest ups remaining).2.2 ∧
      (MonoStop ρ → HasF (updatesLoop ρ env idx p latest ups remaining).2.1 = true →
        ρ (updatesLoop ρ env idx p latest ups remaining).2.2 = false) ∧
      HasNPF (updatesLoop ρ env idx p latest ups remaining).2.1 = false := by
  intro remaining
  induction remaining with
  | zero =>
    intro idx p latest ups
    refine ⟨?_, le_refl _, ?_, ?_⟩ <;> simp [updatesLoop, PollsOnly, HasF, HasNPF]
  | succ r ih =>
    intro idx p latest ups
    simp only [updatesLoop]
    by_cases hρ : ρ p = false
    · rw [if_pos hρ]
      refine ⟨by simp [PollsOnly, isPollEv], Nat.le_succ p, ?_, ?_⟩
      · intro hm _
        exact mono_false_le hm (Nat.le_succ p) hρ
      · simp [HasNPF, isNPFalse, isPostSite]
    · rw [if_neg hρ]
      by_cases hfail : env.fail_at idx = true
      · rw [if_pos hfail]
        rcases hrec : updatesLoop ρ env (idx + 1) (p + 1) latest ups r with ⟨res, tr, p'⟩
        have hfacts := ih (idx + 1) (p + 1) latest ups
        rw [hrec] at hfacts
        simp only [hrec]
        refine ⟨?_, le_trans (Nat.le_succ p) hfacts.2.1, ?_, ?_⟩
        · intro e he
          rcases List.mem_cons.mp he with rfl | he'
          · rfl
          · exact hfacts.1 e he'
        · intro hm hf
          rw [hasF_cons_true] at hf
          exact hfacts.2.2.1 hm hf
        · show (isNPFalse (Ev.poll .updatesLoop true) || HasNPF tr) = false
          rw [hfacts.2.2.2]
          simp [isNPFalse]
      · rw [if_neg hfail]
        by_cases hout : env.buttons_at idx ≤ idx
        · rw [if_pos hout]
          refine ⟨by simp [PollsOnly, isPollEv], Nat.le_succ p, ?_, ?_⟩
          · intro _ hf
            simp [HasF, isPollFalse] at hf
          · simp [HasNPF, isNPFalse]
        · rw [if_neg hout]
          rcases hrec : updatesLoop ρ env (idx + 1) (p + 1)
              (if (idx = 0 && pyStrip (env.date_at idx) ≠ "") = true then
                pyStrip (env.date_at idx) else latest)
              (if strTake (pyStrip (env.content_at idx)) 200 ≠ "" then
                ups ++ ["[" ++ pyStrip (env.date_at idx) ++ "] " ++
                  strTake (pyStrip (env.content_at idx)) 200]
               else ups) r with ⟨res, tr, p'⟩
          have hfacts := ih (idx + 1) (p + 1)
              (if (idx = 0 && pyStrip (env.date_at idx) ≠ "") = true then
                pyStrip (env.date_at idx) else latest)
              (if strTake (pyStrip (env.content_at idx)) 200 ≠ "" then
                ups ++ ["[" ++ pyStrip (env.date_at idx) ++ "] " ++
                  strTake (pyStrip (env.content_at idx)) 200]
               else ups)
          rw [hrec] at hfacts
          simp only [hrec]
          refine ⟨?_, le_trans (Nat.le_succ p) hfacts.2.1, ?_, ?_⟩
          · intro e he
            rcases List.mem_cons.mp he with rfl | he'
            · rfl
            · exact hfacts.1 e he'
          · intro hm hf
            rw [hasF_cons_true] at hf
            exact hfacts.2.2.1 hm hf
          · show (isNPFalse (Ev.poll .updatesLoop true) || HasNPF tr) = false
            rw [hfacts.2.2.2]
            simp [isNPFalse]

theorem collectLoop_facts (ρ : Nat → Bool) (env : CollectEnv) :
    ∀ (fuel n p : Nat) (prev : Int) (stable : Nat),
      PollsOnly (collectLoop ρ env n p prev stable fuel).2.1 ∧
      p ≤ (collectLoop ρ env n p prev stable fuel).2.2 ∧
      (MonoStop ρ → HasF (collectLoop ρ env n p prev stable fuel).2.1 = true →
        ρ (collectLoop ρ env n p prev stable fuel).2.2 = false) := by
  intro fuel
  induction fuel with
  | zero =>
    intro n p prev stable
    refine ⟨?_, le_refl _, ?_⟩ <;> simp [collectLoop, PollsOnly, HasF]
  | succ f ih =>
    intro n p prev stable
    simp only [collectLoop]
    by_cases hst : 5 ≤ stable
    · rw [if_pos hst]
      refine ⟨?_, le_refl _, ?_⟩ <;> simp [PollsOnly, HasF]
    · rw [if_neg hst]
      by_cases hρ : ρ p = false
      · rw [if_pos hρ]
        refine ⟨by simp [PollsOnly, isPollEv], Nat.le_succ p, ?_⟩
        intro hm _
        exact mono_false_le hm (Nat.le_succ p) hρ
      · rw [if_neg hρ]
        rcases hrec : collectLoop ρ env (n + 1) (p + 1)
            ((resultLinks (env.links_at (n + 1))).length : Int)
            (if ((resultLinks (env.links_at (n + 1))).length : Int) = prev then stable + 1
             else 0) f with ⟨n', tr, p'⟩
        have hfacts := ih (n + 1) (p + 1)
            ((resultLinks (env.links_at (n + 1))).length : Int)
            (if ((resultLinks (env.links_at (n + 1))).length : Int) = prev then stable + 1
             else 0)
        rw [hrec] at hfacts
        simp only [hrec]
        refine ⟨?_, le_trans (Nat.le_succ p) hfacts.2.1, ?_⟩
        · intro e he
          rcases List.mem_cons.mp he with rfl | he'
          · rfl
          · exact hfacts.1 e he'
        · intro hm hf
          rw [hasF_cons_true] at hf
          exact hfacts.2.2 hm hf

theorem hasF_false_of_true_exit {ρ : Nat → Bool} {tr : List Ev} {q : Nat}
    (hfacts : MonoStop ρ → HasF tr = true → ρ q = false)
    (hm : MonoStop ρ) (ht : ρ q = true) : HasF tr = false := by
  cases h : HasF tr with
  | false => rfl
  | true => rw [hfacts hm h] at ht; exact absurd ht (by simp)

theorem get_reviews_facts (ρ : Nat → Bool) (p : Nat) (tabs : List String)
    (els : List ReviewEl) :
    PollsOnly (get_reviews ρ p tabs els).2.1 ∧
    p ≤ (get_reviews ρ p tabs els).2.2 ∧
    (MonoStop ρ → HasF (get_reviews ρ p tabs els).2.1 = true →
      ρ (get_reviews ρ p tabs els).2.2 = false) := by
  simp only [get_reviews]
  by_cases h1 : ρ p = false
  · rw [if_pos h1]
    refine ⟨by simp [PollsOnly, isPollEv], Nat.le_succ p, ?_⟩
    intro hm _
    exact mono_false_le hm (Nat.le_succ p) h1
  · rw [if_neg h1]
    by_cases h2 : (tabs.any fun t => strContains t "クチコミ") = false
    · rw [if_pos h2]
      refine ⟨by simp [PollsOnly, isPollEv], Nat.le_succ p, ?_⟩
      intro _ hf
      simp [HasF, isPollFalse] at hf
    · rw [if_neg h2]
      by_cases h3 : ρ (p + 1) = false
      · rw [if_pos h3]
        refine ⟨by simp [PollsOnly, isPollEv], Nat.le_add_right p 2, ?_⟩
        intro hm _
        exact mono_false_le hm (Nat.le_succ (p + 1)) h3
      · rw [if_neg h3]
        refine ⟨by simp [PollsOnly, isPollEv], Nat.le_add_right p 2, ?_⟩
        intro _ hf
        simp [HasF, isPollFalse] at hf

theorem get_photos_facts (ρ : Nat → Bool) (p : Nat) (name : String) (env : PhotosEnv) :
    PollsOnly (get_photos ρ p name env).2.1 ∧
    p ≤ (get_photos ρ p name env).2.2 ∧
    (MonoStop ρ → HasF (get_photos ρ p name env).2.1 = true →
      ρ (get_photos ρ p name env).2.2 = false) := by
  simp only [get_photos]
  by_cases h1 : ρ p = false
  · rw [if_pos h1]
    refine ⟨by simp [PollsOnly, isPollEv], Nat.le_succ p, ?_⟩
    intro hm _
    exact mono_false_le hm (Nat.le_succ p) h1
  · rw [if_neg h1]
    by_cases h2 : env.open_ok = false
    · rw [if_pos h2]
      refine ⟨by simp [PollsOnly, isPollEv], Nat.le_succ p, ?_⟩
      intro _ hf
      simp [HasF, isPollFalse] at hf
    · rw [if_neg h2]
      rcases hS : photoScrollLoop ρ env 0 (p + 1) 0 0 15 with ⟨trS, p2, ab⟩
      have hSf := photoScrollLoop_facts ρ env 15 0 (p + 1) 0 0
      rw [hS] at hSf
      simp only
      have hheadS : PollsOnly (Ev.poll Site.photosHead true :: trS) := by
        intro e he
        rcases List.mem_cons.mp he with rfl | he'
        · rfl
        · exact hSf.1 e he'
      have hheadSF : MonoStop ρ → HasF (Ev.poll Site.photosHead true :: trS) = true →
          ρ p2 = false := by
        intro hm hf
        rw [hasF_cons_true] at hf
        exact hSf.2.2 hm hf
      by_cases hab : ab = true
      · rw [if_pos hab]
        exact ⟨hheadS, le_trans (Nat.le_succ p) hSf.2.1, hheadSF⟩
      · rw [if_neg hab]
        by_cases h3 : min env.final_thumbs 20 = 0
        · rw [if_pos h3]
          exact ⟨hheadS, le_trans (Nat.le_succ p) hSf.2.1, hheadSF⟩
        · rw [if_neg h3]
          by_cases h4 : env.first_click_ok = false
          · rw [if_pos h4]
            exact ⟨hheadS, le_trans (Nat.le_succ p) hSf.2.1, hheadSF⟩
          · rw [if_neg h4]
            rcases hL : photoLoop ρ env (ownerNames name) 0 p2 0 0 []
                (min (min env.final_thumbs 20) 10) with ⟨resL, trL, p3⟩
            have hLf := photoLoop_facts ρ env (ownerNames name)
              (min (min env.final_thumbs 20) 10) 0 p2 0 0 []
            rw [hL] at hLf
            simp only
            refine ⟨?_, ?_, ?_⟩
            · intro e he
              rcases List.mem_cons.mp he with rfl | he'
              · rfl
              · rcases List.mem_append.mp he' with h | h
                · exact hSf.1 e h
                · exact hLf.1 e h
            · exact le_trans (Nat.le_succ p) (le_trans hSf.2.1 hLf.2.1)
            · intro hm hf
              rw [hasF_append, hasF_append, Bool.or_eq_true, Bool.or_eq_true] at hf
              rcases hf with (hf | hf) | hf
              · simp [HasF, isPollFalse] at hf
              · exact mono_false_le hm hLf.2.1 (hSf.2.2 hm hf)
              · exact hLf.2.2 hm hf

theorem get_latest_updates_facts (ρ : Nat → Bool) (p : Nat) (env : PostEnv) :
    PollsOnly (get_latest_updates ρ p env).2.1 ∧
    p ≤ (get_latest_updates ρ p env).2.2 ∧
    (MonoStop ρ → HasF (get_latest_updates ρ p env).2.1 = true →
      ρ (get_latest_updates ρ p env).2.2 = false) ∧
    HasNPF (get_latest_updates ρ p env).2.1 = false := by
  simp only [get_latest_updates]
  by_cases h1 : ρ p = false
  · rw [if_pos h1]
    refine ⟨by simp [PollsOnly, isPollEv], Nat.le_succ p, ?_, ?_⟩
    · intro hm _
      exact mono_false_le hm (Nat.le_succ p) h1
    · simp [HasNPF, isNPFalse, isPostSite]
  · rw [if_neg h1]
    rcases hU : updatesLoop ρ env 0 (p + 1) "" [] (min env.buttons0 5) with ⟨resU, trU, pU⟩
    have hUf := updatesLoop_facts ρ env (min env.buttons0 5) 0 (p + 1) "" []
    rw [hU] at hUf
    simp only
    refine ⟨?_, le_trans (Nat.le_succ p) hUf.2.1, ?_, ?_⟩
    · intro e he
      rcases List.mem_cons.mp he with rfl | he'
      · rfl
      · exact hUf.1 e he'
    · intro hm hf
      rw [hasF_cons_true] at hf
      exact hUf.2.2.1 hm hf
    · show (isNPFalse (Ev.poll .updatesHead true) || HasNPF trU) = false
      rw [hUf.2.2.2]
      simp [isNPFalse]

theorem collect_results_facts (ρ : Nat → Bool) (p : Nat) (env : CollectEnv) :
    PollsOnly (collect_results ρ p env).2.1 ∧
    p ≤ (collect_results ρ p env).2.2 ∧
    (MonoStop ρ → HasF (collect_results ρ p env).2.1 = true →
      ρ (collect_results ρ p env).2.2 = false) := by
  simp only [collect_results]
  by_cases h1 : env.feed_found = false
  · rw [if_pos h1]
    refine ⟨?_, le_refl _, ?_⟩ <;> simp [PollsOnly, HasF]
  · rw [if_neg h1]
    rcases hC : collectLoop ρ env 0 p (-1) 0 env.scroll_fuel with ⟨n, tr, p'⟩
    have hCf := collectLoop_facts ρ env env.scroll_fuel 0 p (-1) 0
    rw [hC] at hCf
    exact hCf

theorem pollsOnly_single_true {s : Site} : PollsOnly [Ev.poll s true] := by
  simp [PollsOnly, isPollEv]

theorem hasNPF_single_true {s : Site} : HasNPF [Ev.poll s true] = false := by
  simp [HasNPF, isNPFalse]

theorem hasF_single_true {s : Site} : HasF [Ev.poll s true] = false := by
  simp [HasF, isPollFalse]

theorem extract_detail_facts (ρ : Nat → Bool) (p : Nat) (kw : String) (d : DetailEnv) :
    PollsOnly (extract_detail ρ p kw d).2.1 ∧
    p ≤ (extract_detail ρ p kw d).2.2 ∧
    (MonoStop ρ → HasF (extract_detail ρ p kw d).2.1 = true →
      ρ (extract_detail ρ p kw d).2.2 = false) ∧
    (MonoStop ρ → ∀ rec : Record, (extract_detail ρ p kw d).1 = some rec →
      HasNPF (extract_detail ρ p kw d).2.1 = false) := by
  simp only [extract_detail]
  rcases hT : titleLoop ρ d 0 p 60 with ⟨resT, trT, p1⟩
  have hTf := titleLoop_facts ρ d 60 0 p
  rw [hT] at hTf
  dsimp only at hTf
  rcases resT with _ | title
  · dsimp only
    exact ⟨hTf.1, hTf.2.1, hTf.2.2, fun _ rec h => by simp at h⟩
  · dsimp only
    by_cases ht0 : title = ""
    · rw [if_pos ht0]
      dsimp only
      exact ⟨hTf.1, hTf.2.1, hTf.2.2, fun _ rec h => by simp at h⟩
    · rw [if_neg ht0]
      by_cases h1 : ρ p1 = false
      · rw [if_pos h1]
        dsimp only
        refine ⟨?_, le_trans hTf.2.1 (Nat.le_succ p1), ?_, fun _ rec h => by simp at h⟩
        · apply pollsOnly_of_all
          simp [List.all_append, all_of_pollsOnly hTf.1, isPollEv]
        · intro hm _
          exact mono_false_le hm (Nat.le_succ p1) h1
      · rw [if_neg h1]
        by_cases h2 : ρ (p1 + 1) = false
        · rw [if_pos h2]
          dsimp only
          refine ⟨?_, by have := hTf.2.1; omega, ?_, fun _ rec h => by simp at h⟩
          · apply pollsOnly_of_all
            simp [List.all_append, all_of_pollsOnly hTf.1, isPollEv]
          · intro hm _
            exact mono_false_le hm (Nat.le_succ (p1 + 1)) h2
        · rw [if_neg h2]
          rcases hP : get_photos ρ (p1 + 2) title d.photos_env with ⟨photos, trP, p4⟩
          have hPf := get_photos_facts ρ (p1 + 2) title d.photos_env
          rw [hP] at hPf
          dsimp only at hPf
          dsimp only
          by_cases h3 : ρ p4 = false
          · rw [if_pos h3]
            dsimp only
            refine ⟨?_, ?_, ?_, fun _ rec h => by simp at h⟩
            · apply pollsOnly_of_all
              simp [List.all_append, all_of_pollsOnly hTf.1, all_of_pollsOnly hPf.1, isPollEv]
            · have := hTf.2.1
              have := hPf.2.1
              omega
            · intro hm _
              exact mono_false_le hm (Nat.le_succ p4) h3
          · rw [if_neg h3]
            rcases hR : get_reviews ρ (p4 + 1) d.tabs d.review_els with ⟨resR, trR, p6⟩
            have hRf := get_reviews_facts ρ (p4 + 1) d.tabs d.review_els
            rw [hR] at hRf
            dsimp only at hRf
            dsimp only
            by_cases h4 : ρ p6 = false
            · rw [if_pos h4]
              dsimp only
              refine ⟨?_, ?_, ?_, fun _ rec h => by simp at h⟩
              · apply pollsOnly_of_all
                simp [List.all_append, all_of_pollsOnly hTf.1, all_of_pollsOnly hPf.1,
                  all_of_pollsOnly hRf.1, isPollEv]
              · have := hTf.2.1
                have := hPf.2.1
                have := hRf.2.1
                omega
              · intro hm _
                exact mono_false_le hm (Nat.le_succ p6) h4
            · rw [if_neg h4]
              rcases hU : get_latest_updates ρ (p6 + 1) d.posts_env with ⟨resU, trU, p8⟩
              have hUf := get_latest_updates_facts ρ (p6 + 1) d.posts_env
              rw [hU] at hUf
              dsimp only at hUf
              rcases resU with ⟨ld, lc⟩
              dsimp only
              refine ⟨?_, ?_, ?_, ?_⟩
              · apply pollsOnly_of_all
                simp [List.all_append, all_of_pollsOnly hTf.1, all_of_pollsOnly hPf.1,
                  all_of_pollsOnly hRf.1, all_of_pollsOnly hUf.1, isPollEv]
              · have := hTf.2.1
                have := hPf.2.1
                have := hRf.2.1
                have := hUf.2.1
                omega
              · intro hm hf
                rw [hasF_append, hasF_append, hasF_append, hasF_append, hasF_append,
                  hasF_append, hasF_append] at hf
                simp only [hasF_single_true, Bool.or_false] at hf
                rw [Bool.or_eq_true, Bool.or_eq_true, Bool.or_eq_true] at hf
                rcases hf with ((hfT | hfP) | hfR) | hfU
                · rw [hasF_false_of_true_exit hTf.2.2 hm (by simpa using h1)] at hfT
                  exact absurd hfT (by simp)
                · have := hPf.2.2 hm hfP
                  rw [this] at h3
                  exact absurd rfl h3
                · have := hRf.2.2 hm hfR
                  rw [this] at h4
                  exact absurd rfl h4
                · exact hUf.2.2.1 hm hfU
              · intro hm rec _
                rw [hasNPF_append, hasNPF_append, hasNPF_append, hasNPF_append,
                  hasNPF_append, hasNPF_append, hasNPF_append]
                simp only [hasNPF_single_true, Bool.or_false]
                rw [hasNPF_false_of_hasF
                    (hasF_false_of_true_exit hTf.2.2 hm (by simpa using h1)),
                  hasNPF_false_of_hasF
                    (hasF_false_of_true_exit hPf.2.2 hm (by simpa using h3)),
                  hasNPF_false_of_hasF
                    (hasF_false_of_true_exit hRf.2.2 hm (by simpa using h4)),
                  hUf.2.2.2]
                simp

/-! ## Loop compositions: the item loop, keyword search, and the run -/

theorem safe_append_refined {a b : List Ev} (ha : Safe a) (hb : Safe b)
    (hnav : HasF a = true → NoNav b) (hemit : HasNPF a = true → NoEmit b) :
    Safe (a ++ b) := by
  intro pre suf heq
  rcases List.append_eq_append_iff.mp heq with ⟨m, hpre, hsuf⟩ | ⟨m, hpre, hsuf⟩
  · subst hpre; subst hsuf
    constructor
    · intro hp
      rw [hasF_append, Bool.or_eq_true] at hp
      rcases hp with hp | hp
      · intro e he
        exact hnav hp e (List.mem_append_right m he)
      · exact (hb m suf rfl).1 hp
    · intro hp
      rw [hasNPF_append, Bool.or_eq_true] at hp
      rcases hp with hp | hp
      · intro e he
        exact hemit hp e (List.mem_append_right m he)
      · exact (hb m suf rfl).2 hp
  · subst hpre; subst hsuf
    constructor
    · intro hp
      apply noNav_append ((ha pre m rfl).1 hp)
      exact hnav (by rw [hasF_append, hp]; rfl)
    · intro hp
      apply noEmit_append ((ha pre m rfl).2 hp)
      apply hemit
      rw [hasNPF_append, hp]
      rfl

theorem hasF_itemHd {i total : Nat} {href : String} :
    HasF (itemHd i total href) = false := by
  simp [itemHd, HasF, isPollFalse]

theorem hasNPF_itemHd {i total : Nat} {href : String} :
    HasNPF (itemHd i total href) = false := by
  simp [itemHd, HasNPF, isNPFalse]

theorem emitsCount_itemHd {i total : Nat} {href : String} :
    emitsCount (itemHd i total href) = 0 := by
  simp [itemHd, emitsCount, isEmit]

theorem emittedKeys_itemHd {i total : Nat} {href : String} :
    emittedKeys (itemHd i total href) = [] := by
  simp [itemHd, emittedKeys]

theorem emittedKeys_append {a b : List Ev} :
    emittedKeys (a ++ b) = emittedKeys a ++ emittedKeys b := by
  simp [emittedKeys]

theorem safe_itemHd_append {i total : Nat} {href : String} {tr : List Ev}
    (h : Safe tr) : Safe (itemHd i total href ++ tr) := by
  apply safe_append_refined (safe_of_hasF_false hasF_itemHd) h
  · rw [hasF_itemHd]; intro h'; exact absurd h' (by simp)
  · rw [hasNPF_itemHd]; intro h'; exact absurd h' (by simp)

theorem safe_emit_cons {k : String} {tr : List Ev} (h : Safe tr) :
    Safe (Ev.emit k :: tr) := by
  apply safe_cons h
  · intro h'; simp [isPollFalse] at h'
  · intro h'; simp [isNPFalse] at h'

theorem hasF_emit {k : String} : HasF [Ev.emit k] = false := by
  simp [HasF, isPollFalse]

theorem emitsCount_emit {k : String} : emitsCount [Ev.emit k] = 1 := by
  simp [emitsCount, isEmit]

theorem emittedKeys_emit {k : String} : emittedKeys [Ev.emit k] = [k] := rfl

theorem itemLoop_facts (ρ : Nat → Bool) (env : KeywordEnv) (flt : Filters)
    (now : CivilD) (kw : String) (total : Nat) :
    ∀ (links : List (String × String)) (i p : Nat) (seen : List String) (count : Nat),
      (itemLoop ρ env flt now kw total links i p seen count).1 =
        count + emitsCount (itemLoop ρ env flt now kw total links i p seen count).2.1 ∧
      p ≤ (itemLoop ρ env flt now kw total links i p seen count).2.2 ∧
      (ρ p = false →
        (itemLoop ρ env flt now kw total links i p seen count).2.1 =
            [Ev.poll .itemLoop false] ∨
          (itemLoop ρ env flt now kw total links i p seen count).2.1 = []) ∧
      (MonoStop ρ →
        HasF (itemLoop ρ env flt now kw total links i p seen count).2.1 = true →
        ρ (itemLoop ρ env flt now kw total links i p seen count).2.2 = false) ∧
      (MonoStop ρ → Safe (itemLoop ρ env flt now kw total links i p seen count).2.1) ∧
      (emittedKeys (itemLoop ρ env flt now kw total links i p seen count).2.1).Nodup ∧
      (∀ k ∈ emittedKeys (itemLoop ρ env flt now kw total links i p seen count).2.1,
        k ∉ seen) := by
  intro links
  induction links with
  | nil =>
    intro i p seen count
    refine ⟨by simp [itemLoop, emitsCount], le_refl _, fun _ => Or.inr rfl, ?_, ?_, ?_, ?_⟩
    · intro _ hf
      simp [itemLoop, HasF] at hf
    · intro _
      exact safe_of_hasF_false (by simp [itemLoop, HasF])
    · simp [itemLoop, emittedKeys]
    · simp [itemLoop, emittedKeys]
  | cons lk rest ih =>
    rcases lk with ⟨href, nm⟩
    intro i p seen count
    simp only [itemLoop]
    by_cases hρ : ρ p = false
    · rw [if_pos hρ]
      refine ⟨by simp [emitsCount, isEmit], Nat.le_succ p, fun _ => Or.inl rfl,
        ?_, ?_, by simp [emittedKeys], by simp [emittedKeys]⟩
      · intro hm _
        exact mono_false_le hm (Nat.le_succ p) hρ
      · intro _
        exact safe_of_pollsOnly (by simp [PollsOnly, isPollEv])
    · rw [if_neg hρ]
      by_cases hg : (env.item_of href).get_fails = true
      · rw [if_pos hg]
        rcases hrec : itemLoop ρ env flt now kw total rest (i + 1) (p + 1) seen count
          with ⟨c, tr, p'⟩
        have hr := ih (i + 1) (p + 1) seen count
        rw [hrec] at hr
        dsimp only at hr ⊢
        refine ⟨?_, le_trans (Nat.le_succ p) hr.2.1, fun h => absurd h hρ, ?_, ?_, ?_, ?_⟩
        · simp only [emitsCount_append, emitsCount_itemHd, Nat.zero_add]
          exact hr.1
        · intro hm hf
          simp only [hasF_append, hasF_itemHd, Bool.false_or] at hf
          exact hr.2.2.2.1 hm hf
        · intro hm
          exact safe_itemHd_append (hr.2.2.2.2.1 hm)
        · simp only [emittedKeys_append, emittedKeys_itemHd, List.nil_append]
          exact hr.2.2.2.2.2.1
        · simp only [emittedKeys_append, emittedKeys_itemHd, List.nil_append]
          exact hr.2.2.2.2.2.2
      · rw [if_neg hg]
        rcases hD : extract_detail ρ (p + 1) kw (env.item_of href).detail
          with ⟨resD, trD, pD⟩
        have hDf := extract_detail_facts ρ (p + 1) kw (env.item_of href).detail
        rw [hD] at hDf
        dsimp only at hDf
        rcases resD with _ | data
        · dsimp only
          rcases hrec : itemLoop ρ env flt now kw total rest (i + 1) pD seen count
            with ⟨c, tr, p'⟩
          have hr := ih (i + 1) pD seen count
          rw [hrec] at hr
          dsimp only at hr ⊢
          refine ⟨?_, le_trans (Nat.le_succ p) (le_trans hDf.2.1 hr.2.1),
            fun h => absurd h hρ, ?_, ?_, ?_, ?_⟩
          · simp only [emitsCount_append, emitsCount_itemHd,
              emitsCount_of_pollsOnly hDf.1, Nat.zero_add, Nat.add_zero]
            exact hr.1
          · intro hm hf
            simp only [hasF_append, hasF_itemHd, Bool.false_or] at hf
            rw [Bool.or_eq_true] at hf
            rcases hf with hf | hf
            · exact mono_false_le hm hr.2.1 (hDf.2.2.1 hm hf)
            · exact hr.2.2.2.1 hm hf
          · intro hm
            simp only [List.append_assoc]
            apply safe_itemHd_append
            apply safe_append_refined (safe_of_pollsOnly hDf.1) (hr.2.2.2.2.1 hm)
            · intro hf
              rcases hr.2.2.1 (hDf.2.2.1 hm hf) with h | h
              · rw [h]
                exact noNav_of_pollsOnly (by simp [PollsOnly, isPollEv])
              · rw [h]
                intro e he
                exact absurd he (List.not_mem_nil e)
            · intro hf
              have hfF : HasF trD = true :=
                List.any_eq_true.mpr (by
                  rcases List.any_eq_true.mp hf with ⟨e, he, hne⟩
                  exact ⟨e, he, isPollFalse_of_NPFalse hne⟩)
              rcases hr.2.2.1 (hDf.2.2.1 hm hfF) with h | h
              · rw [h]
                exact noEmit_of_pollsOnly (by simp [PollsOnly, isPollEv])
              · rw [h]
                intro e he
                exact absurd he (List.not_mem_nil e)
          · simp only [emittedKeys_append, emittedKeys_itemHd,
              emittedKeys_of_pollsOnly hDf.1, List.nil_append, List.append_nil]
            exact hr.2.2.2.2.2.1
          · simp only [emittedKeys_append, emittedKeys_itemHd,
              emittedKeys_of_pollsOnly hDf.1, List.nil_append, List.append_nil]
            exact hr.2.2.2.2.2.2
        · dsimp only
          by_cases hseen : seen.contains (dedupKey data) = true
          · rw [if_pos hseen]
            rcases hrec : itemLoop ρ env flt now kw total rest (i + 1) pD seen count
              with ⟨c, tr, p'⟩
            have hr := ih (i + 1) pD seen count
            rw [hrec] at hr
            dsimp only at hr ⊢
            refine ⟨?_, le_trans (Nat.le_succ p) (le_trans hDf.2.1 hr.2.1),
              fun h => absurd h hρ, ?_, ?_, ?_, ?_⟩
            · simp only [emitsCount_append, emitsCount_itemHd,
                emitsCount_of_pollsOnly hDf.1, Nat.zero_add, Nat.add_zero]
              exact hr.1
            · intro hm hf
              simp only [hasF_append, hasF_itemHd, Bool.false_or] at hf
              rw [Bool.or_eq_true] at hf
              rcases hf with hf | hf
              · exact mono_false_le hm hr.2.1 (hDf.2.2.1 hm hf)
              · exact hr.2.2.2.1 hm hf
            · intro hm
              simp only [List.append_assoc]
              apply safe_itemHd_append
              apply safe_append_refined (safe_of_pollsOnly hDf.1) (hr.2.2.2.2.1 hm)
              · intro hf
                rcases hr.2.2.1 (hDf.2.2.1 hm hf) with h | h
                · rw [h]
                  exact noNav_of_pollsOnly (by simp [PollsOnly, isPollEv])
                · rw [h]
                  intro e he
                  exact absurd he (List.not_mem_nil e)
              · intro hf
                have hfF : HasF trD = true :=
                  List.any_eq_true.mpr (by
                    rcases List.any_eq_true.mp hf with ⟨e, he, hne⟩
                    exact ⟨e, he, isPollFalse_of_NPFalse hne⟩)
                rcases hr.2.2.1 (hDf.2.2.1 hm hfF) with h | h
                · rw [h]
                  exact noEmit_of_pollsOnly (by simp [PollsOnly, isPollEv])
                · rw [h]
                  intro e he
                  exact absurd he (List.not_mem_nil e)
            · simp only [emittedKeys_append, emittedKeys_itemHd,
                emittedKeys_of_pollsOnly hDf.1, List.nil_append, List.append_nil]
              exact hr.2.2.2.2.2.1
            · simp only [emittedKeys_append, emittedKeys_itemHd,
                emittedKeys_of_pollsOnly hDf.1, List.nil_append, List.append_nil]
              exact hr.2.2.2.2.2.2
          · rw [if_neg hseen]
            by_cases hflt : apply_filters now data flt = false
            · rw [if_pos hflt]
              rcases hrec : itemLoop ρ env flt now kw total rest (i + 1) pD (dedupKey data :: seen) count
                with ⟨c, tr, p'⟩
              have hr := ih (i + 1) pD (dedupKey data :: seen) count
              rw [hrec] at hr
              dsimp only at hr ⊢
              refine ⟨?_, le_trans (Nat.le_succ p) (le_trans hDf.2.1 hr.2.1),
                fun h => absurd h hρ, ?_, ?_, ?_, ?_⟩
              · simp only [emitsCount_append, emitsCount_itemHd,
                  emitsCount_of_pollsOnly hDf.1, Nat.zero_add, Nat.add_zero]
                exact hr.1
              · intro hm hf
                simp only [hasF_append, hasF_itemHd, Bool.false_or] at hf
                rw [Bool.or_eq_true] at hf
                rcases hf with hf | hf
                · exact mono_false_le hm hr.2.1 (hDf.2.2.1 hm hf)
                · exact hr.2.2.2.1 hm hf
              · intro hm
                simp only [List.append_assoc]
                apply safe_itemHd_append
                apply safe_append_refined (safe_of_pollsOnly hDf.1) (hr.2.2.2.2.1 hm)
                · intro hf
                  rcases hr.2.2.1 (hDf.2.2.1 hm hf) with h | h
                  · rw [h]
                    exact noNav_of_pollsOnly (by simp [PollsOnly, isPollEv])
                  · rw [h]
                    intro e he
                    exact absurd he (List.not_mem_nil e)
                · intro hf
                  have hfF : HasF trD = true :=
                    List.any_eq_true.mpr (by
                      rcases List.any_eq_true.mp hf with ⟨e, he, hne⟩
                      exact ⟨e, he, isPollFalse_of_NPFalse hne⟩)
                  rcases hr.2.2.1 (hDf.2.2.1 hm hfF) with h | h
                  · rw [h]
                    exact noEmit_of_pollsOnly (by simp [PollsOnly, isPollEv])
                  · rw [h]
                    intro e he
                    exact absurd he (List.not_mem_nil e)
              · simp only [emittedKeys_append, emittedKeys_itemHd,
                  emittedKeys_of_pollsOnly hDf.1, List.nil_append, List.append_nil]
                exact hr.2.2.2.2.2.1
              · simp only [emittedKeys_append, emittedKeys_itemHd,
                  emittedKeys_of_pollsOnly hDf.1, List.nil_append, List.append_nil]
                intro k hk
                exact fun hks => hr.2.2.2.2.2.2 k hk (List.mem_cons_of_mem _ hks)
            · rw [if_neg hflt]
              rcases hrec : itemLoop ρ env flt now kw total rest (i + 1) pD
                  (dedupKey data :: seen) (count + 1) with ⟨c, tr, p'⟩
              have hr := ih (i + 1) pD (dedupKey data :: seen) (count + 1)
              rw [hrec] at hr
              dsimp only at hr ⊢
              refine ⟨?_, le_trans (Nat.le_succ p) (le_trans hDf.2.1 hr.2.1),
                fun h => absurd h hρ, ?_, ?_, ?_, ?_⟩
              · simp only [emitsCount_append, emitsCount_itemHd, emitsCount_emit,
                  emitsCount_of_pollsOnly hDf.1, Nat.zero_add, Nat.add_zero]
                rw [hr.1]
                omega
              · intro hm hf
                simp only [hasF_append, hasF_itemHd, hasF_emit, Bool.false_or,
                  Bool.or_false] at hf
                rw [Bool.or_eq_true] at hf
                rcases hf with hf | hf
                · exact mono_false_le hm hr.2.1 (hDf.2.2.1 hm hf)
                · exact hr.2.2.2.1 hm hf
              · intro hm
                simp only [List.append_assoc]
                apply safe_itemHd_append
                apply safe_append_refined (safe_of_pollsOnly hDf.1)
                  (safe_emit_cons (hr.2.2.2.2.1 hm))
                · intro hf
                  rcases hr.2.2.1 (hDf.2.2.1 hm hf) with h | h
                  · rw [h]
                    intro e he
                    rcases List.mem_cons.mp he with rfl | he
                    · rfl
                    · rcases List.mem_singleton.mp he with rfl
                      rfl
                  · rw [h]
                    intro e he
                    rcases List.mem_cons.mp he with rfl | he
                    · rfl
                    · exact absurd he (List.not_mem_nil e)
                · intro hf
                  exact absurd (hDf.2.2.2 hm data rfl) (by rw [hf]; simp)
              · simp only [emittedKeys_append, emittedKeys_itemHd, emittedKeys_emit,
                  emittedKeys_of_pollsOnly hDf.1, List.nil_append]
                refine List.nodup_cons.mpr ⟨?_, hr.2.2.2.2.2.1⟩
                intro hmem
                exact hr.2.2.2.2.2.2 _ hmem (List.mem_cons_self _ _)
              · simp only [emittedKeys_append, emittedKeys_itemHd, emittedKeys_emit,
                  emittedKeys_of_pollsOnly hDf.1, List.nil_append]
                intro k hk
                rcases List.mem_cons.mp hk with rfl | hk
                · intro hks
                  exact hseen (List.elem_eq_true_of_mem hks)
                · intro hks
                  exact hr.2.2.2.2.2.2 k hk (List.mem_cons_of_mem _ hks)

theorem hasF_nav {u : String} : HasF [Ev.nav u] = false := by
  simp [HasF, isPollFalse]

theorem emitsCount_nav {u : String} : emitsCount [Ev.nav u] = 0 := by
  simp [emitsCount, isEmit]

theorem emittedKeys_nav {u : String} : emittedKeys [Ev.nav u] = [] := rfl

theorem safe_nav_cons {u : String} {tr : List Ev} (h : Safe tr) :
    Safe (Ev.nav u :: tr) := by
  apply safe_cons h
  · intro h'; simp [isPollFalse] at h'
  · intro h'; simp [isNPFalse] at h'

theorem search_keyword_facts (ρ : Nat → Bool) (p : Nat) (kw : String)
    (flt : Filters) (now : CivilD) (env : KeywordEnv) :
    (search_keyword ρ p kw flt now env).1 =
      emitsCount (search_keyword ρ p kw flt now env).2.1 ∧
    p ≤ (search_keyword ρ p kw flt now env).2.2 ∧
    (MonoStop ρ → HasF (search_keyword ρ p kw flt now env).2.1 = true →
      ρ (search_keyword ρ p kw flt now env).2.2 = false) ∧
    (MonoStop ρ → Safe (search_keyword ρ p kw flt now env).2.1) ∧
    (emittedKeys (search_keyword ρ p kw flt now env).2.1).Nodup := by
  simp only [search_keyword]
  by_cases h1 : env.search_get_fails = true
  · rw [if_pos h1]
    refine ⟨emitsCount_nav.symm, le_refl _, ?_, ?_, by rw [emittedKeys_nav]; exact List.nodup_nil⟩
    · intro _ hf
      rw [hasF_nav] at hf
      exact absurd hf (by simp)
    · intro _
      exact safe_of_hasF_false hasF_nav
  · rw [if_neg h1]
    rcases hC : collect_results ρ p env.collect with ⟨results, trC, p1⟩
    have hCf := collect_results_facts ρ p env.collect
    rw [hC] at hCf
    dsimp only at hCf
    by_cases h2 : results = []
    · rw [if_pos h2]
      dsimp only
      refine ⟨?_, hCf.2.1, ?_, ?_, ?_⟩
      · rw [emitsCount_append, emitsCount_nav, emitsCount_of_pollsOnly hCf.1]
      · intro hm hf
        rw [hasF_append, hasF_nav, Bool.false_or] at hf
        exact hCf.2.2 hm hf
      · intro _
        exact safe_nav_cons (safe_of_pollsOnly hCf.1)
      · rw [emittedKeys_append, emittedKeys_nav, List.nil_append,
          emittedKeys_of_pollsOnly hCf.1]
        exact List.nodup_nil
    · rw [if_neg h2]
      rcases hI : itemLoop ρ env flt now kw results.length results 0 p1 [] 0
        with ⟨count, trI, p2⟩
      have hIf := itemLoop_facts ρ env flt now kw results.length results 0 p1 [] 0
      rw [hI] at hIf
      dsimp only at hIf ⊢
      refine ⟨?_, le_trans hCf.2.1 hIf.2.1, ?_, ?_, ?_⟩
      · simp only [emitsCount_append, emitsCount_nav, emitsCount_of_pollsOnly hCf.1,
          Nat.zero_add]
        simpa using hIf.1
      · intro hm hf
        simp only [hasF_append, hasF_nav, Bool.false_or] at hf
        rw [Bool.or_eq_true] at hf
        rcases hf with hf | hf
        · exact mono_false_le hm hIf.2.1 (hCf.2.2 hm hf)
        · exact hIf.2.2.2.1 hm hf
      · intro hm
        simp only [List.append_assoc]
        apply safe_nav_cons
        apply safe_append_refined (safe_of_pollsOnly hCf.1) (hIf.2.2.2.2.1 hm)
        · intro hf
          rcases hIf.2.2.1 (hCf.2.2 hm hf) with h | h
          · rw [h]
            exact noNav_of_pollsOnly (by simp [PollsOnly, isPollEv])
          · rw [h]
            intro e he
            exact absurd he (List.not_mem_nil e)
        · intro hf
          have hfF : HasF trC = true :=
            List.any_eq_true.mpr (by
              rcases List.any_eq_true.mp hf with ⟨e, he, hne⟩
              exact ⟨e, he, isPollFalse_of_NPFalse hne⟩)
          rcases hIf.2.2.1 (hCf.2.2 hm hfF) with h | h
          · rw [h]
            exact noEmit_of_pollsOnly (by simp [PollsOnly, isPollEv])
          · rw [h]
            intro e he
            exact absurd he (List.not_mem_nil e)
      · simp only [emittedKeys_append, emittedKeys_nav, emittedKeys_of_pollsOnly hCf.1,
          List.nil_append]
        exact hIf.2.2.2.2.2.1

theorem kwLoopF_facts (ρ : Nat → Bool) (w : World) (flt : Filters) (now : CivilD) :
    ∀ (kws : List String) (p count : Nat),
      (kwLoopF ρ w flt now kws p count).1 =
        count + emitsCount (kwLoopF ρ w flt now kws p count).2.1 ∧
      p ≤ (kwLoopF ρ w flt now kws p count).2.2 ∧
      (ρ p = false →
        (kwLoopF ρ w flt now kws p count).2.1 = [Ev.poll .kwLoop false] ∨
          (kwLoopF ρ w flt now kws p count).2.1 = []) ∧
      (MonoStop ρ → HasF (kwLoopF ρ w flt now kws p count).2.1 = true →
        ρ (kwLoopF ρ w flt now kws p count).2.2 = false) ∧
      (MonoStop ρ → Safe (kwLoopF ρ w flt now kws p count).2.1) := by
  intro kws
  induction kws with
  | nil =>
    intro p count
    refine ⟨by simp [kwLoopF, emitsCount], le_refl _, fun _ => Or.inr rfl, ?_, ?_⟩
    · intro _ hf
      simp [kwLoopF, HasF] at hf
    · intro _
      exact safe_of_hasF_false (by simp [kwLoopF, HasF])
  | cons kw rest ih =>
    intro p count
    simp only [kwLoopF]
    by_cases hρ : ρ p = false
    · rw [if_pos hρ]
      refine ⟨by simp [emitsCount, isEmit], Nat.le_succ p, fun _ => Or.inl rfl, ?_, ?_⟩
      · intro hm _
        exact mono_false_le hm (Nat.le_succ p) hρ
      · intro _
        exact safe_of_pollsOnly (by simp [PollsOnly, isPollEv])
    · rw [if_neg hρ]
      rcases hS : search_keyword ρ (p + 1) kw flt now (w.kw_env kw) with ⟨cS, trS, p1⟩
      have hSf := search_keyword_facts ρ (p + 1) kw flt now (w.kw_env kw)
      rw [hS] at hSf
      dsimp only at hSf
      rcases hrec : kwLoopF ρ w flt now rest p1 (count + cS) with ⟨cr, tr, p'⟩
      have hr := ih p1 (count + cS)
      rw [hrec] at hr
      dsimp only at hr ⊢
      refine ⟨?_, le_trans (Nat.le_succ p) (le_trans hSf.2.1 hr.2.1),
        fun h => absurd h hρ, ?_, ?_⟩
      · have hc : emitsCount ((Ev.poll Site.kwLoop true :: trS) ++ tr) =
            emitsCount trS + emitsCount tr := by
          simp [emitsCount, List.countP_cons, List.countP_append, isEmit]
        rw [hc, hr.1, hSf.1]
        omega
      · intro hm hf
        rw [hasF_append, hasF_cons_true, Bool.or_eq_true] at hf
        rcases hf with hf | hf
        · exact mono_false_le hm hr.2.1 (hSf.2.2.1 hm hf)
        · exact hr.2.2.2.1 hm hf
      · intro hm
        rw [List.cons_append]
        apply safe_cons
        · apply safe_append_refined (hSf.2.2.2.1 hm) (hr.2.2.2.2 hm)
          · intro hf
            rcases hr.2.2.1 (hSf.2.2.1 hm hf) with h | h
            · rw [h]
              exact noNav_of_pollsOnly (by simp [PollsOnly, isPollEv])
            · rw [h]
              intro e he
              exact absurd he (List.not_mem_nil e)
          · intro hf
            have hfF : HasF trS = true :=
              List.any_eq_true.mpr (by
                rcases List.any_eq_true.mp hf with ⟨e, he, hne⟩
                exact ⟨e, he, isPollFalse_of_NPFalse hne⟩)
            rcases hr.2.2.1 (hSf.2.2.1 hm hfF) with h | h
            · rw [h]
              exact noEmit_of_pollsOnly (by simp [PollsOnly, isPollEv])
            · rw [h]
              intro e he
              exact absurd he (List.not_mem_nil e)
        · intro h'; simp [isPollFalse] at h'
        · intro h'; simp [isNPFalse] at h'

/-! # Claims -/

/-- C5: website selection.  Every raw candidate is normalized
(`normalize_url`: redirect `q` substitution, `http://` prefix — witnessed on
the two normalization examples), candidates that normalize to `""` or match
the claim-link patterns are rejected (`cleanedCandidates`), and among the
survivors the candidate with the shortest host name is returned with ties
resolved by first-seen order (`firstMinBy sortKeyU`, the spec-side selector);
the result is `""` exactly when no candidate survives, a returned survivor is
never a claim link, and on the spec's example the engine returns one of the
two non-claim candidates. -/
theorem C5_website_selection :
    (∀ urls : List String,
      (cleanedCandidates urls = [] → pick_best_url urls = "") ∧
      (cleanedCandidates urls ≠ [] →
        pick_best_url urls ∈ cleanedCandidates urls ∧
        (∀ u ∈ cleanedCandidates urls, sortKeyU (pick_best_url urls) ≤ sortKeyU u) ∧
        pick_best_url urls = (firstMinBy sortKeyU (cleanedCandidates urls)).getD "" ∧
        is_claim_link (pick_best_url urls) = false)) ∧
    normalize_url "business.google.com/create?x=1" = "http://business.google.com/create?x=1" ∧
    normalize_url "https://www.google.com/url?q=http://shop.example.jp/&sa=x" =
      "http://shop.example.jp/" ∧
    (pick_best_url
        ["business.google.com/create?x=1", "http://foo.example.com",
         "http://a.example.com/page/sub"] = "http://foo.example.com" ∨
     pick_best_url
        ["business.google.com/create?x=1", "http://foo.example.com",
         "http://a.example.com/page/sub"] = "http://a.example.com/page/sub") := by
  refine ⟨?_, by decide, by decide, Or.inr (by decide)⟩
  intro urls
  refine ⟨pick_best_url_empty, ?_⟩
  intro h
  have hmem := pick_best_url_mem h
  refine ⟨hmem, ?_, pick_best_url_eq_firstMin h, cleaned_no_claim _ hmem⟩
  intro u hu
  rcases hm : firstMinBy sortKeyU (cleanedCandidates urls) with _ | m
  · rcases hc : cleanedCandidates urls with _ | ⟨a, as⟩
    · exact absurd hc h
    · rw [hc] at hm
      exact absurd hm firstMinBy_cons_ne_none
  · rw [pick_best_url_eq_firstMin h, hm]
    simpa using firstMinBy_min hm u hu

/-- C5 (witness): the selection property evaluated on the spec's example
list. -/
theorem C5_website_selection_witness :
    cleanedCandidates
        ["business.google.com/create?x=1", "http://foo.example.com",
         "http://a.example.com/page/sub"] ≠ [] ∧
    pick_best_url
        ["business.google.com/create?x=1", "http://foo.example.com",
         "http://a.example.com/page/sub"] ∈
      cleanedCandidates
        ["business.google.com/create?x=1", "http://foo.example.com",
         "http://a.example.com/page/sub"] := by
  have h := (C5_website_selection.1
    ["business.google.com/create?x=1", "http://foo.example.com",
     "http://a.example.com/page/sub"]).2 (by decide)
  exact ⟨by decide, h.1⟩

/-! ## Photo statistics -/

theorem get_newest_eq_firstMax {dates : List String} (h : dates ≠ []) :
    get_newest_photo_date dates = (firstMaxBy date_to_num dates).getD "" := by
  simp only [get_newest_photo_date]
  rw [if_neg h]
  exact stableSortDescBy_head_eq_firstMaxBy "" h

theorem get_newest_mem {dates : List String} (h : dates ≠ []) :
    get_newest_photo_date dates ∈ dates := by
  rw [get_newest_eq_firstMax h]
  rcases hm : firstMaxBy date_to_num dates with _ | m
  · rcases hc : dates with _ | ⟨a, as⟩
    · exact absurd hc h
    · rw [hc] at hm
      exact absurd hm firstMaxBy_cons_ne_none
  · simpa using firstMaxBy_mem hm

theorem get_newest_max {dates : List String} (h : dates ≠ []) :
    ∀ s ∈ dates, date_to_num s ≤ date_to_num (get_newest_photo_date dates) := by
  intro s hs
  rw [get_newest_eq_firstMax h]
  rcases hm : firstMaxBy date_to_num dates with _ | m
  · rcases hc : dates with _ | ⟨a, as⟩
    · exact absurd hc h
    · rw [hc] at hm
      exact absurd hm firstMaxBy_cons_ne_none
  · simpa using firstMaxBy_max hm s hs

theorem assemblePhotoStats_spec (own usr : Nat) (dates : List String) :
    (assemblePhotoStats own usr dates).owner_count = own ∧
    (assemblePhotoStats own usr dates).user_count = usr ∧
    (own + usr = 0 → (assemblePhotoStats own usr dates).owner_ratio = "0%") ∧
    (0 < own + usr →
      (assemblePhotoStats own usr dates).owner_ratio =
        toString (roundHalfEvenQ (((own : ℚ) / ((own + usr : Nat) : ℚ)) * 100)) ++ "%") ∧
    (assemblePhotoStats own usr dates).latest_date =
      (if dates = [] then "" else get_newest_photo_date dates) := by
  refine ⟨rfl, rfl, ?_, ?_, ?_⟩
  · intro h
    simp only [assemblePhotoStats]
    rw [if_neg (by omega)]
  · intro h
    simp only [assemblePhotoStats]
    rw [if_pos h]
  · by_cases hd : dates = []
    · simp [assemblePhotoStats, hd]
    · simp [assemblePhotoStats, hd]

theorem get_photos_shape (ρ : Nat → Bool) (p : Nat) (name : String) (env : PhotosEnv) :
    ∃ own usr dates,
      (get_photos ρ p name env).1 = assemblePhotoStats own usr dates := by
  have hdef : (⟨0, 0, "0%", ""⟩ : PhotoStats) = assemblePhotoStats 0 0 [] := by
    simp [assemblePhotoStats]
  simp only [get_photos]
  split
  · exact ⟨0, 0, [], hdef⟩
  · split
    · exact ⟨0, 0, [], hdef⟩
    · rcases photoScrollLoop ρ env 0 (p + 1) 0 0 15 with ⟨trS, p2, aborted⟩
      simp only
      split
      · exact ⟨0, 0, [], hdef⟩
      · split
        · exact ⟨0, 0, [], hdef⟩
        · split
          · exact ⟨0, 0, [], hdef⟩
          · rcases photoLoop ρ env (ownerNames name) 0 p2 0 0 []
                (min (min env.final_thumbs 20) 10) with ⟨⟨own, usr, dates⟩, trL, p3⟩
            exact ⟨own, usr, dates, rfl⟩

/-- C7: for every photo-gallery extraction the returned stats are assembled by
`assemblePhotoStats` from the loop's owner/user counts and collected dates;
`owner_ratio` is the round-half-even percentage `round(own/(own+usr)*100)`
with `%` appended, or `"0%"` for a zero denominator; `latest_date` is the
maximum of the collected dates under the `year*12 + month` key with ties
broken by first-seen order (`firstMaxBy`); and on the spec's example dates
the computed latest is `2023年11月`. -/
theorem C7_photo_stats :
    (∀ (ρ : Nat → Bool) (p : Nat) (name : String) (env : PhotosEnv),
      ∃ own usr dates,
        (get_photos ρ p name env).1 = assemblePhotoStats own usr dates) ∧
    (∀ (own usr : Nat) (dates : List String),
      (own + usr = 0 → (assemblePhotoStats own usr dates).owner_ratio = "0%") ∧
      (0 < own + usr →
        (assemblePhotoStats own usr dates).owner_ratio =
          toString (roundHalfEvenQ (((own : ℚ) / ((own + usr : Nat) : ℚ)) * 100)) ++ "%") ∧
      (assemblePhotoStats own usr dates).latest_date =
        (if dates = [] then "" else get_newest_photo_date dates)) ∧
    (∀ dates : List String, dates ≠ [] →
      get_newest_photo_date dates ∈ dates ∧
      (∀ s ∈ dates, date_to_num s ≤ date_to_num (get_newest_photo_date dates)) ∧
      get_newest_photo_date dates = (firstMaxBy date_to_num dates).getD "") ∧
    get_newest_photo_date ["2021年3月", "2023年11月", "2022年1月"] = "2023年11月" := by
  refine ⟨get_photos_shape, ?_, ?_, by decide⟩
  · intro own usr dates
    have h := assemblePhotoStats_spec own usr dates
    exact ⟨h.2.2.1, h.2.2.2.1, h.2.2.2.2⟩
  · intro dates h
    exact ⟨get_newest_mem h, get_newest_max h, get_newest_eq_firstMax h⟩

/-- C7 (witness): the photo-stat properties evaluated at a concrete
extraction (two photos: one owner-authored, one visitor-authored) and on the
spec's example dates. -/
theorem C7_photo_stats_witness :
    (get_photos (fun _ => true) 0 "店"
        { open_ok := true, final_thumbs := 2,
          view_at := fun i => if i = 0 then { pauthor := "店", pdate := "2021年3月" }
                              else { pauthor := "客", pdate := "2023年11月" } }).1.owner_count
        = 1 ∧
    (get_photos (fun _ => true) 0 "店"
        { open_ok := true, final_thumbs := 2,
          view_at := fun i => if i = 0 then { pauthor := "店", pdate := "2021年3月" }
                              else { pauthor := "客", pdate := "2023年11月" } }).1.latest_date
        = "2023年11月" ∧
    (assemblePhotoStats 0 0 []).owner_ratio = "0%" ∧
    get_newest_photo_date ["2021年3月", "2023年11月", "2022年1月"] ∈
      ["2021年3月", "2023年11月", "2022年1月"] := by
  refine ⟨by decide, by decide, (C7_photo_stats.2.1 0 0 []).1 (by decide),
    (C7_photo_stats.2.2.1 ["2021年3月", "2023年11月", "2022年1月"] (by decide)).1⟩

/-! ## Review extraction -/

theorem get_reviews_found (ρ : Nat → Bool) (p : Nat) (tabs : List String)
    (els : List ReviewEl) (h1 : ρ p = true) (h2 : ρ (p + 1) = true)
    (htab : tabs.any (fun t => strContains t "クチコミ") = true) :
    (get_reviews ρ p tabs els).1 =
      (((els.take 5).map reviewOne).filter (fun x => x.1 ≠ "") |>.map (·.1),
       ((els.take 5).map reviewOne).countP (·.2), min els.length 5,
       if 0 < min els.length 5 then
         toString (((els.take 5).map reviewOne).countP (·.2)) ++ "/" ++
           toString (min els.length 5)
       else "0/0") := by
  simp only [get_reviews, h1, h2, htab]
  rfl

theorem reviewOne_entry_ne (el : ReviewEl) :
    ((reviewOne el).1 ≠ "") ↔ (strTake (pyStrip el.rtext) 200 ≠ "") := by
  simp only [reviewOne]
  by_cases h : strTake (pyStrip el.rtext) 200 = ""
  · rw [if_neg (by simpa using h)]
    simp [h]
  · rw [if_pos (by simpa using h)]
    constructor
    · intro _; exact h
    · intro _ hc
      have := congrArg String.data hc
      simp [String.data_append] at this

/-- C6: on the normal path, `totalReviewsChecked` is `min(found, 5)` and
`reply_ratio` is `"<count>/<total>"`, with `"0/0"` when the total is zero —
but on the failing input (a detail page whose tab row has no `クチコミ` tab)
the code's early return yields `reply_ratio = "0%"` with empty results and
zero counts, not the `"0/0"` the claim states. -/
theorem C6_reply_ratio :
    (get_reviews (fun _ => true) 0 ["概要", "写真"]
        [{ rtext := "good" }, {}]).1 = ([], 0, 0, "0%") ∧
    (∀ (ρ : Nat → Bool) (p : Nat) (tabs : List String) (els : List ReviewEl),
      ρ p = true → ρ (p + 1) = true →
      tabs.any (fun t => strContains t "クチコミ") = true →
      (get_reviews ρ p tabs els).1.2.2.1 = min els.length 5 ∧
      (get_reviews ρ p tabs els).1.2.2.2 =
        (if 0 < min els.length 5 then
          toString ((get_reviews ρ p tabs els).1.2.1) ++ "/" ++ toString (min els.length 5)
         else "0/0")) := by
  refine ⟨by decide, ?_⟩
  intro ρ p tabs els h1 h2 htab
  rw [get_reviews_found ρ p tabs els h1 h2 htab]
  exact ⟨rfl, rfl⟩

/-- C6 (witness): the normal-path shape at a page with a review tab and three
review elements, one replied. -/
theorem C6_reply_ratio_witness :
    (get_reviews (fun _ => true) 0 ["クチコミ"]
        [{ rtext := "good", reply_div := true }, {}, { rtext := "x" }]).1.2.2.1 = 3 ∧
    (get_reviews (fun _ => true) 0 ["クチコミ"]
        [{ rtext := "good", reply_div := true }, {}, { rtext := "x" }]).1.2.2.2 = "1/3" := by
  have h := C6_reply_ratio.2 (fun _ => true) 0 ["クチコミ"]
    [{ rtext := "good", reply_div := true }, {}, { rtext := "x" }] rfl rfl (by decide)
  refine ⟨h.1.trans (by decide), h.2.trans ?_⟩
  decide

/-- C10 (implicit): within the first `min(found, 5)` review elements, an
element with an empty review text is still counted in `totalReviewsChecked`
and still contributes to `ownerReplyCount` exactly when its reply markers are
present (the reply count is the marker count of the first five elements,
independent of their texts), while the returned review list holds only the
elements with non-empty text; consequently its length is at most
`totalReviewsChecked`. -/
theorem C10_empty_text_reviews :
    ∀ (ρ : Nat → Bool) (p : Nat) (tabs : List String) (els : List ReviewEl),
      ρ p = true → ρ (p + 1) = true →
      tabs.any (fun t => strContains t "クチコミ") = true →
      (get_reviews ρ p tabs els).1.2.2.1 = min els.length 5 ∧
      (get_reviews ρ p tabs els).1.2.1 = (els.take 5).countP elHasReply ∧
      (get_reviews ρ p tabs els).1.1.length =
        ((els.take 5).filter (fun e => strTake (pyStrip e.rtext) 200 ≠ "")).length ∧
      (get_reviews ρ p tabs els).1.1.length ≤ (get_reviews ρ p tabs els).1.2.2.1 := by
  intro ρ p tabs els h1 h2 htab
  rw [get_reviews_found ρ p tabs els h1 h2 htab]
  refine ⟨rfl, ?_, ?_, ?_⟩
  · simp only [List.countP_map]
    rfl
  · rw [List.length_map, List.filter_map]
    rw [List.length_map]
    congr 1
    apply List.filter_congr
    intro e _
    simp only [Function.comp_apply]
    by_cases h : strTake (pyStrip e.rtext) 200 = ""
    · rw [decide_eq_false (by simpa using (not_iff_not.mpr (reviewOne_entry_ne e)).mpr (by simpa using h)),
        decide_eq_false (by simpa using h)]
    · rw [decide_eq_true ((reviewOne_entry_ne e).mpr h), decide_eq_true h]
  · calc ((((els.take 5).map reviewOne).filter (fun x => x.1 ≠ "")).map (·.1)).length
        = (((els.take 5).map reviewOne).filter (fun x => x.1 ≠ "")).length := List.length_map _ _
      _ ≤ ((els.take 5).map reviewOne).length := List.length_filter_le _ _
      _ = (els.take 5).length := List.length_map _ _
      _ = min els.length 5 := by rw [List.length_take]; omega

/-! ## Photo-recency filtering -/

theorem takeWhile_all_append {p : Char → Bool} :
    ∀ {l r : List Char}, (∀ c ∈ l, p c = true) →
      (l ++ r).takeWhile p = l ++ r.takeWhile p := by
  intro l
  induction l with
  | nil => intro r _; simp
  | cons c cs ih =>
    intro r h
    simp only [List.cons_append, List.takeWhile_cons, h c (by simp), if_true]
    rw [ih (fun x hx => h x (by simp [hx]))]

theorem lfind_append_right {pat : List Char} :
    ∀ (l : List Char) {r : List Char}, lbegins pat r = true → lfind pat (l ++ r) = true := by
  intro l
  induction l with
  | nil =>
    intro r h
    cases r with
    | nil => simpa [lfind]
    | cons c cs => simp [lfind, h]
  | cons c cs ih =>
    intro r h
    simp only [List.cons_append, lfind, Bool.or_eq_true]
    exact Or.inr (ih h)

theorem lfind_singleton_of_mem {c : Char} :
    ∀ {l : List Char}, c ∈ l → lfind [c] l = true := by
  intro l
  induction l with
  | nil => intro h; simp at h
  | cons x xs ih =>
    intro h
    simp only [lfind, Bool.or_eq_true]
    rcases List.mem_cons.mp h with rfl | h'
    · left
      show (decide (c = c) && lbegins [] xs) = true
      simp [lbegins]
    · right; exact ih h'

theorem no_zenmae {l : List Char} (h : '前' ∉ l) : lfind "年前".data l = false := by
  induction l with
  | nil => decide
  | cons x xs ih =>
    simp only [lfind, Bool.or_eq_false_iff]
    constructor
    · show lbegins ['年', '前'] (x :: xs) = false
      cases xs with
      | nil => simp [lbegins]
      | cons y ys =>
        have hy : y ≠ '前' := fun hc => h (by simp [hc])
        show (decide ('年' = x) && (decide ('前' = y) && lbegins [] ys)) = false
        have hdy : decide ('前' = y) = false := by
          simpa using fun hc => hy hc.symm
        simp [hdy]
    · exact ih (fun hc => h (by simp [hc]))

theorem nenMae_digits {ds : List Char} (hne : ds ≠ []) (hd : ds.all isDigitC = true) :
    findDigitsBefore "年前".data (ds ++ "年前".data) = some ds := by
  have hall : ∀ x ∈ ds, isDigitC x = true := fun x hx => List.all_eq_true.mp hd x hx
  have htw : List.takeWhile isDigitC (ds ++ "年前".data) = ds := by
    rw [takeWhile_all_append hall]
    rw [show List.takeWhile isDigitC "年前".data = [] from by decide, List.append_nil]
  have hstep : digitsBeforeAt "年前".data (ds ++ "年前".data) = some ds := by
    simp only [digitsBeforeAt, htw]
    rw [if_neg hne, List.drop_left]
    rw [show List.dropWhile isPySpace "年前".data = "年前".data from by decide]
    rw [show lbegins "年前".data "年前".data = true from by decide]
    rfl
  cases ds with
  | nil => exact absurd rfl hne
  | cons c cs =>
    rw [List.cons_append] at hstep ⊢
    simp only [findDigitsBefore, hstep]

theorem ymAt_shape {a b c d : Char} (ha : isDigitC a = true) (hb : isDigitC b = true)
    (hc : isDigitC c = true) (hd : isDigitC d = true) :
    ∀ {dm : List Char}, dm ≠ [] → dm.length ≤ 2 → dm.all isDigitC = true →
    ∀ (rest : List Char),
      ymAt (a :: b :: c :: d :: '年' :: (dm ++ '月' :: rest)) =
        some (digitsToNat [a, b, c, d], digitsToNat dm, 6 + dm.length) := by
  intro dm hne hlen hdm rest
  rcases dm with _ | ⟨e, _ | ⟨f, _ | ⟨g, gs⟩⟩⟩
  · exact absurd rfl hne
  · have he : isDigitC e = true := by simpa using hdm
    cases rest with
    | nil =>
      show ymAt (a :: b :: c :: d :: '年' :: e :: '月' :: []) = _
      simp only [ymAt]
      rw [if_pos (by simp [ha, hb, hc, hd])]
      rw [if_pos (by simp [he])]
      simp
    | cons r rs =>
      show ymAt (a :: b :: c :: d :: '年' :: e :: '月' :: r :: rs) = _
      simp only [ymAt]
      rw [if_pos (by simp [ha, hb, hc, hd])]
      rw [if_neg (by simp [show isDigitC '月' = false from by decide])]
      rw [if_pos (by simp [he])]
      simp
  · have he : isDigitC e = true := by simp [List.all_cons] at hdm; exact hdm.1
    have hf : isDigitC f = true := by simp [List.all_cons] at hdm; exact hdm.2
    show ymAt (a :: b :: c :: d :: '年' :: e :: f :: '月' :: rest) = _
    simp only [ymAt]
    rw [if_pos (by simp [ha, hb, hc, hd])]
    rw [if_pos (by simp [he, hf])]
    simp
  · simp at hlen

theorem ymSearch_shape {a b c d : Char} (ha : isDigitC a = true) (hb : isDigitC b = true)
    (hc : isDigitC c = true) (hd : isDigitC d = true) {dm : List Char}
    (hne : dm ≠ []) (hlen : dm.length ≤ 2) (hdm : dm.all isDigitC = true)
    (rest : List Char) :
    ymSearchL (a :: b :: c :: d :: '年' :: (dm ++ '月' :: rest)) =
      some (digitsToNat [a, b, c, d], digitsToNat dm) := by
  simp only [ymSearchL, ymAt_shape ha hb hc hd hne hlen hdm rest]

/-- A record whose only set field is `photos.latest_date` (the only record
field the photo-recency filter reads). -/
def recWithLatest (s : String) : Record := { photos := { latest_date := s } }

/-- Filter criteria with only the photo-recency filter set. -/
def photoOnlyF (f : Int) : Filters := { photo := some f }

theorem apply_filters_rel (f : Int) (s : String) (now : CivilD) (N : Nat)
    (hne : (s ++ "年前") ≠ "") (hcon : strContains (s ++ "年前") "年前" = true)
    (hnum : nenMaeNum (s ++ "年前") = some N) :
    apply_filters now (recWithLatest (s ++ "年前")) (photoOnlyF f) =
      !((decide (f = 1) && decide (1 ≤ N)) || (decide (f = 2) && decide (2 ≤ N))) := by
  simp only [apply_filters, recWithLatest, photoOnlyF, Option.getD_some, hnum, hcon]
  simp [hne]
  intro h1 h2
  exact ⟨Or.inl h1, Or.inl h2⟩

theorem apply_filters_abs (f : Int) (latest : String) (now : CivilD) (y m : Nat)
    (hne : latest ≠ "") (hnen : strContains latest "年前" = false)
    (hy : strContains latest "年" = true) (hm : strContains latest "月" = true)
    (hym : ymSearch latest = some (y, m)) :
    apply_filters now (recWithLatest latest) (photoOnlyF f) =
      !((decide (f = 1) &&
          decide (1 ≤ ((daysFromCivil now.y now.m now.d - daysFromCivil (y : Int) (m : Int) 1 : Int) : ℚ) / 365)) ||
        (decide (f = 2) &&
          decide (2 ≤ ((daysFromCivil now.y now.m now.d - daysFromCivil (y : Int) (m : Int) 1 : Int) : ℚ) / 365))) := by
  simp only [apply_filters, recWithLatest, photoOnlyF, Option.getD_some, hnen, hy, hm, hym]
  simp [hne]
  intro h1 h2
  exact ⟨Or.inl h1, Or.inl h2⟩

theorem apply_filters_unparseable (f : Int) (latest : String) (now : CivilD)
    (hnen : strContains latest "年前" = true → nenMaeNum latest = none)
    (hym : strContains latest "年前" = false → ymSearch latest = none) :
    apply_filters now (recWithLatest latest) (photoOnlyF f) = true := by
  simp only [apply_filters, recWithLatest, photoOnlyF, Option.getD_some]
  by_cases h0 : latest = ""
  · simp [h0]
  · by_cases h1 : strContains latest "年前" = true
    · simp [h0, h1, hnen h1]
    · have h1' : strContains latest "年前" = false := by
        simpa using h1
      simp [h0, h1', hym h1']

theorem string_app_nenmae_ne (s : String) : (s ++ "年前") ≠ "" := by
  intro hc
  have := congrArg String.data hc
  simp [String.data_append] at this

theorem digit_ne_char {x c : Char} (hx : isDigitC x = true) (hc : isDigitC c = false) :
    x ≠ c := by
  intro h
  rw [h, hc] at hx
  exact absurd hx (by simp)

/-- C8: the photo-recency filter.  For `photoRecencyFilter ∈ {1, 2}`:
a record with relative `latestPhotoDate` `"N年前"` is rejected exactly when
`(filter = 1 ∧ N ≥ 1) ∨ (filter = 2 ∧ N ≥ 2)`; a record with an absolute
`"YYYY年MM月"` date is rejected under the same thresholds applied to
`(now − date).days / 365`; and a record whose `latestPhotoDate` parses in
neither branch (e.g. `"6か月前"` or `""`) is never rejected by this filter. -/
theorem C8_photo_recency :
    (∀ f : Int, f = 1 ∨ f = 2 →
      (∀ (ds : List Char) (now : CivilD), ds ≠ [] → ds.all isDigitC = true →
        (apply_filters now (recWithLatest (String.mk ds ++ "年前")) (photoOnlyF f) = false ↔
          (f = 1 ∧ 1 ≤ digitsToNat ds) ∨ (f = 2 ∧ 2 ≤ digitsToNat ds))) ∧
      (∀ (a b c d : Char) (dm : List Char) (now : CivilD),
        isDigitC a = true → isDigitC b = true → isDigitC c = true → isDigitC d = true →
        dm ≠ [] → dm.length ≤ 2 → dm.all isDigitC = true →
        (apply_filters now
            (recWithLatest (String.mk (a :: b :: c :: d :: '年' :: (dm ++ ['月']))))
            (photoOnlyF f) = false ↔
          (f = 1 ∧ 1 ≤ ((daysFromCivil now.y now.m now.d -
              daysFromCivil (digitsToNat [a, b, c, d] : Int) (digitsToNat dm : Int) 1 : Int) : ℚ) / 365) ∨
          (f = 2 ∧ 2 ≤ ((daysFromCivil now.y now.m now.d -
              daysFromCivil (digitsToNat [a, b, c, d] : Int) (digitsToNat dm : Int) 1 : Int) : ℚ) / 365))) ∧
      (∀ (latest : String) (now : CivilD),
        (strContains latest "年前" = true → nenMaeNum latest = none) →
        (strContains latest "年前" = false → ymSearch latest = none) →
        apply_filters now (recWithLatest latest) (photoOnlyF f) = true)) ∧
    apply_filters ⟨2026, 10, 12⟩ (recWithLatest "2年前") (photoOnlyF 1) = false ∧
    apply_filters ⟨2026, 10, 12⟩ (recWithLatest "6か月前") (photoOnlyF 1) = true := by
  refine ⟨?_, by decide, by decide⟩
  intro f _
  refine ⟨?_, ?_, apply_filters_unparseable f⟩
  · intro ds now hne hd
    have hdata : (String.mk ds ++ "年前").data = ds ++ "年前".data := by
      simp [String.data_append]
    have hcon : strContains (String.mk ds ++ "年前") "年前" = true := by
      show lfind "年前".data (String.mk ds ++ "年前").data = true
      rw [hdata]
      exact lfind_append_right ds (by decide)
    have hnum : nenMaeNum (String.mk ds ++ "年前") = some (digitsToNat ds) := by
      show (findDigitsBefore "年前".data (String.mk ds ++ "年前").data).map digitsToNat = _
      rw [hdata, nenMae_digits hne hd]
      rfl
    rw [apply_filters_rel f (String.mk ds) now (digitsToNat ds)
      (string_app_nenmae_ne _) hcon hnum]
    simp only [Bool.not_eq_false', Bool.or_eq_true, Bool.and_eq_true, decide_eq_true_eq]
  · intro a b c d dm now ha hb hc hd hdne hdlen hddig
    set L : List Char := a :: b :: c :: d :: '年' :: (dm ++ ['月']) with hL
    have hne : String.mk L ≠ "" := by
      intro hc2
      have := congrArg String.data hc2
      simp [hL] at this
    have hnen : strContains (String.mk L) "年前" = false := by
      show lfind "年前".data L = false
      apply no_zenmae
      intro hmem
      rw [hL] at hmem
      simp only [List.mem_cons, List.mem_append, List.mem_singleton] at hmem
      have hdig : ∀ x : Char, isDigitC x = true → ¬('前' = x) := by
        intro x hx hc2
        exact digit_ne_char hx (by decide) hc2.symm
      rcases hmem with h | h | h | h | h | h | h
      · exact hdig a ha h
      · exact hdig b hb h
      · exact hdig c hc h
      · exact hdig d hd h
      · exact absurd h (by decide)
      · exact hdig _ (List.all_eq_true.mp hddig _ h) (by
          rcases h with _; rfl)
      · exact absurd h (by decide)
    have hy : strContains (String.mk L) "年" = true := by
      show lfind "年".data L = true
      exact lfind_singleton_of_mem (by simp [hL])
    have hm : strContains (String.mk L) "月" = true := by
      show lfind "月".data L = true
      exact lfind_singleton_of_mem (by simp [hL])
    have hym : ymSearch (String.mk L) = some (digitsToNat [a, b, c, d], digitsToNat dm) := by
      show ymSearchL L = _
      rw [hL, show dm ++ ['月'] = dm ++ '月' :: [] from rfl]
      exact ymSearch_shape ha hb hc hd hdne hdlen hddig []
    rw [apply_filters_abs f (String.mk L) now (digitsToNat [a, b, c, d]) (digitsToNat dm)
      hne hnen hy hm hym]
    simp only [Bool.not_eq_false', Bool.or_eq_true, Bool.and_eq_true, decide_eq_true_eq]

/-- C8 (witness): a `3年前` record is rejected under filter 2, and an
absolute-form-free `2023年` record is never rejected. -/
theorem C8_photo_recency_witness :
    apply_filters ⟨2026, 10, 12⟩ (recWithLatest (String.mk ['3'] ++ "年前"))
      (photoOnlyF 2) = false ∧
    apply_filters ⟨2026, 10, 12⟩ (recWithLatest "2023年") (photoOnlyF 1) = true := by
  constructor
  · exact ((C8_photo_recency.1 2 (Or.inr rfl)).1 ['3'] ⟨2026, 10, 12⟩ (by decide)
      (by decide)).mpr (Or.inr ⟨rfl, by decide⟩)
  · exact (C8_photo_recency.1 1 (Or.inl rfl)).2.2 "2023年" ⟨2026, 10, 12⟩
      (by decide) (by decide)

/-! ## Rating / review-count filtering -/

/-- C9 (counterexample): the claim says a record whose rating is not
parseable as a number is never rejected by the `minRating` check — but the
code maps an empty rating to `0` (`float(data.get("rating") or 0)`), and `0`
is rejected by any positive `minRating`.  Here the record's rating is `""`
(not parseable: `pyFloatQ "" = none`) yet the record is rejected. -/
theorem C9_empty_rating_rejected :
    pyFloatQ "" = none ∧
    apply_filters ⟨2026, 10, 12⟩ { rating := "" }
      { min_rating := some 3 } = false := by
  exact ⟨by decide, by decide⟩

/-- C9 (amended): with the reply and photo filters unset, the record is
rejected exactly when the `minRating` check fires — `minRating` set and
non-zero, and the rating value (an empty rating string is treated as `0`,
otherwise `float(rating)`) parses and is strictly below `minRating` — or the
`maxReviews` check fires — `maxReviews` set and non-zero, and the
review-count value (empty treated as `0`, otherwise `int(review_count)`)
parses and strictly exceeds `maxReviews`.  A record whose non-empty rating or
review count fails to parse is not rejected by the respective check. -/
theorem C9_rating_reviews_filter (data : Record) (mr : Option ℚ) (mx : Option Int)
    (now : CivilD) :
    apply_filters now data { min_rating := mr, max_reviews := mx } = false ↔
      (∃ v, mr = some v ∧ v ≠ 0 ∧
        ∃ r, (if data.rating = "" then some (0 : ℚ) else pyFloatQ data.rating) = some r ∧
          r < v) ∨
      (∃ w, mx = some w ∧ w ≠ 0 ∧
        ∃ k, (if data.review_count = "" then some (0 : Int) else pyIntZ data.review_count)
          = some k ∧ w < k) := by
  rcases mr with _ | v <;> rcases mx with _ | w <;>
    simp only [apply_filters, Option.getD_none, Option.getD_some] <;> norm_num
  · constructor <;> (intro x hx; simp at hx)
  · rcases hval : (if data.review_count = "" then some (0 : Int) else pyIntZ data.review_count)
      with _ | k <;> simp [hval]
  · rcases hval : (if data.rating = "" then some (0 : ℚ) else pyFloatQ data.rating)
      with _ | r <;> simp [hval]
  · rcases hvalr : (if data.rating = "" then some (0 : ℚ) else pyFloatQ data.rating)
      with _ | r <;>
      rcases hvali : (if data.review_count = "" then some (0 : Int) else pyIntZ data.review_count)
        with _ | k <;>
      simp [hvalr, hvali]
    · constructor
      · intro h
        by_cases hv : v = 0
        · exact Or.inr (h (Or.inl hv))
        · by_cases hr : r < v
          · exact Or.inl ⟨hv, hr⟩
          · exact Or.inr (h (Or.inr (le_of_not_lt hr)))
      · rintro (⟨hv, hr⟩ | hw)
        · intro hd
          rcases hd with h0 | hle
          · exact absurd h0 hv
          · exact absurd hle (not_le.mpr hr)
        · intro _
          exact hw

/-- C10 (witness): an element with empty text but a reply marker is counted
in the total and the reply count while contributing no review entry. -/
theorem C10_empty_text_reviews_witness :
    (get_reviews (fun _ => true) 0 ["クチコミ"]
        [{ rtext := "", reply_div := true }, { rtext := "x" }]).1.2.2.1 = 2 ∧
    (get_reviews (fun _ => true) 0 ["クチコミ"]
        [{ rtext := "", reply_div := true }, { rtext := "x" }]).1.2.1 = 1 ∧
    (get_reviews (fun _ => true) 0 ["クチコミ"]
        [{ rtext := "", reply_div := true }, { rtext := "x" }]).1.1.length = 1 := by
  have h := C10_empty_text_reviews (fun _ => true) 0 ["クチコミ"]
    [{ rtext := "", reply_div := true }, { rtext := "x" }] rfl rfl (by decide)
  exact ⟨h.1.trans (by decide), h.2.1.trans (by decide), h.2.2.1.trans (by decide)⟩

/-- C1: for every run that returns a count (every run whose browser launch
does not raise), the returned integer equals the number of `onResult`
invocations (`emit` events) in the run's trace, whether the run completed
normally or was cancelled mid-way. -/
theorem C1_count_equals_emits (ρ : Nat → Bool) (keywords : List String)
    (flt : Filters) (now : CivilD) (w : World) (n : Nat)
    (h : (run ρ keywords flt now w).2 = Except.ok n) :
    n = emitsCount (run ρ keywords flt now w).1 := by
  by_cases hi : w.init_fails = true
  · rw [run, if_pos hi] at h
    exact absurd h (by simp)
  · have hk := kwLoopF_facts ρ w flt now keywords 0 0
    rw [run, if_neg hi] at h ⊢
    dsimp only at h ⊢
    injection h with h'
    rw [← h']
    simpa using hk.1

/-- Witness for C1: a cancelled run over two keywords returns `2`, and its
trace holds exactly two `emit` events. -/
theorem C1_count_equals_emits_witness :
    (run (fun _ => true) ["a", "b"] {} d0 w1).2 = Except.ok 2 ∧
    2 = emitsCount (run (fun _ => true) ["a", "b"] {} d0 w1).1 :=
  ⟨rfl, C1_count_equals_emits (fun _ => true) ["a", "b"] {} d0 w1 2 rfl⟩

/-- C2, counterexample: the `seen` set is rebuilt per keyword
(`seen = set()` inside `_search_keyword`), so a run over two keywords that
surface the same listing emits the dedup key `"T__"` twice — cross-keyword
deduplication does not happen, refuting the cross-keyword half of the
claim. -/
theorem C2_cross_keyword_counterexample :
    emittedKeys (run (fun _ => true) ["a", "b"] {} d0 w1).1 = ["T__", "T__"] ∧
    ¬(emittedKeys (run (fun _ => true) ["a", "b"] {} d0 w1).1).Nodup := by
  exact ⟨rfl, by decide⟩

/-- C2 (amended): within a single keyword the `seen` set does deduplicate —
the dedup keys `title + "__" + address` emitted by one `_search_keyword`
call are pairwise distinct. -/
theorem C2_per_keyword_unique_keys (ρ : Nat → Bool) (p : Nat) (kw : String)
    (flt : Filters) (now : CivilD) (env : KeywordEnv) :
    (emittedKeys (search_keyword ρ p kw flt now env).2.1).Nodup :=
  (search_keyword_facts ρ p kw flt now env).2.2.2.2

/-- C3, counterexample: a monotone stop flag that turns false at poll 15 is
observed false at the recent-posts checkpoint (`updatesHead`, the
`_get_latest_updates` head), yet the in-flight record is still emitted right
after — `_search_keyword` has no stop check between `_get_latest_updates`
and the accept/emit step, refuting "the in-flight item is abandoned". -/
theorem C3_emission_after_false_observed :
    MonoStop c3rho ∧
    (sufAfterFirstFalse (run c3rho ["a"] {} d0 w1).1).getD [] = [Ev.emit "T__"] := by
  constructor
  · intro i h
    simp only [c3rho, decide_eq_true_eq] at h ⊢
    omega
  · rfl

/-- C3 (amended): with a monotone stop flag, once `false` is observed at any
checkpoint no further navigation occurs, and no further emission occurs
either — except after the two recent-posts checkpoints (`updatesHead`,
`updatesLoop`), where the in-flight record is still emitted. -/
theorem C3_cancellation_unwinds (ρ : Nat → Bool) (keywords : List String)
    (flt : Filters) (now : CivilD) (w : World) (hm : MonoStop ρ)
    (pre suf : List Ev) (s : Site)
    (heq : (run ρ keywords flt now w).1 = pre ++ Ev.poll s false :: suf) :
    NoNav suf ∧ (isPostSite s = false → NoEmit suf) := by
  by_cases hi : w.init_fails = true
  · rw [run, if_pos hi] at heq
    dsimp only at heq
    exact absurd heq.symm (List.append_ne_nil_of_right_ne_nil pre (by simp))
  · have hk := kwLoopF_facts ρ w flt now keywords 0 0
    have hsafe := hk.2.2.2.2 hm
    rw [run, if_neg hi] at heq
    dsimp only at heq
    have heq2 : (kwLoopF ρ w flt now keywords 0 0).2.1 =
        (pre ++ [Ev.poll s false]) ++ suf := by
      rw [heq]
      simp
    have hs := hsafe _ _ heq2
    constructor
    · apply hs.1
      rw [hasF_append]
      have h1 : HasF [Ev.poll s false] = true := by simp [HasF, isPollFalse]
      rw [h1]
      simp
    · intro hps
      apply hs.2
      rw [hasNPF_append]
      have h1 : HasNPF [Ev.poll s false] = true := by simp [HasNPF, isNPFalse, hps]
      rw [h1]
      simp

/-- Witness for C3 (amended), at the cancelled concrete run: the trace splits
at the observed `false` (at the posts checkpoint), and the suffix — the
single emission of the in-flight record — contains no navigation. -/
theorem C3_cancellation_unwinds_witness :
    (run c3rho ["a"] {} d0 w1).1 =
      [Ev.poll .kwLoop true, Ev.nav "https://www.google.com/maps/search/a/",
       Ev.poll .scrollLoop true, Ev.poll .scrollLoop true, Ev.poll .scrollLoop true,
       Ev.poll .scrollLoop true, Ev.poll .scrollLoop true, Ev.poll .scrollLoop true,
       Ev.poll .itemLoop true, Ev.prog 1 1, Ev.nav "h1",
       Ev.poll .titleLoop true, Ev.poll .afterTitle true, Ev.poll .afterContact true,
       Ev.poll .photosHead true, Ev.poll .afterPhotos true, Ev.poll .reviewsHead true,
       Ev.poll .afterReviews true] ++ Ev.poll Site.updatesHead false :: [Ev.emit "T__"] ∧
    (NoNav [Ev.emit "T__"] ∧
      (isPostSite Site.updatesHead = false → NoEmit [Ev.emit "T__"])) :=
  ⟨rfl, C3_cancellation_unwinds c3rho ["a"] {} d0 w1
    (fun i h => by simp only [c3rho, decide_eq_true_eq] at h ⊢; omega)
    [Ev.poll .kwLoop true, Ev.nav "https://www.google.com/maps/search/a/",
     Ev.poll .scrollLoop true, Ev.poll .scrollLoop true, Ev.poll .scrollLoop true,
     Ev.poll .scrollLoop true, Ev.poll .scrollLoop true, Ev.poll .scrollLoop true,
     Ev.poll .itemLoop true, Ev.prog 1 1, Ev.nav "h1",
     Ev.poll .titleLoop true, Ev.poll .afterTitle true, Ev.poll .afterContact true,
     Ev.poll .photosHead true, Ev.poll .afterPhotos true, Ev.poll .reviewsHead true,
     Ev.poll .afterReviews true]
    [Ev.emit "T__"] Site.updatesHead rfl⟩

/-- C4, counterexample: `run`'s `try` block has a `finally` but no `except`,
so an exception raised by `_init_browser` (browser launch) propagates to the
caller instead of an integer being returned — refuting "never lets an
exception originating inside extraction propagate".  (`executor.py` catches
it one level up, outside the engine.) -/
theorem C4_launch_exception_propagates :
    (run (fun _ => true) ["a"] {} d0 wFail).2 = Except.error () := rfl

theorem collectLoopE_ok {ρ : Nat → Bool} {env : CollectEnv} {cf : CollectFail}
    (hdom : ∀ n, cf.dom_fail_at n = false) :
    ∀ (fuel n p : Nat) (prev : Int) (stable : Nat),
      ∃ r, collectLoopE ρ env cf n p prev stable fuel = Except.ok r := by
  intro fuel
  induction fuel with
  | zero =>
    intro n p prev stable
    exact ⟨(n, p), rfl⟩
  | succ fuel ih =>
    intro n p prev stable
    simp only [collectLoopE]
    by_cases h5 : 5 ≤ stable
    · rw [if_pos h5]; exact ⟨_, rfl⟩
    · rw [if_neg h5]
      by_cases hρ : ρ p = false
      · rw [if_pos hρ]; exact ⟨_, rfl⟩
      · rw [if_neg hρ, if_neg (by rw [hdom n]; exact Bool.false_ne_true)]
        exact ih _ _ _ _

theorem collect_resultsE_ok {ρ : Nat → Bool} {p : Nat} {env : CollectEnv}
    {cf : CollectFail} (hdom : ∀ n, cf.dom_fail_at n = false)
    (hfin : cf.final_fail = false) :
    ∃ r, collect_resultsE ρ p env cf = Except.ok r := by
  simp only [collect_resultsE]
  by_cases h1 : env.feed_found = false
  · rw [if_pos h1]; exact ⟨_, rfl⟩
  · rw [if_neg h1]
    rcases collectLoopE_ok hdom env.scroll_fuel 0 p (-1) 0 with ⟨⟨n, p'⟩, hL⟩
    rw [hL]
    dsimp only
    rw [if_neg (by rw [hfin]; exact Bool.false_ne_true)]
    exact ⟨_, rfl⟩

theorem extract_detailE_ok {ρ : Nat → Bool} {p : Nat} {kw : String}
    {d : DetailEnv} {df : DetailFail} (h : df.contact_fail = false) :
    ∃ r, extract_detailE ρ p kw d df = Except.ok r := by
  unfold extract_detailE
  rcases titleLoop ρ d 0 p 60 with ⟨_ | title, tr, p1⟩
  · exact ⟨_, rfl⟩
  · dsimp only
    by_cases h0 : title = ""
    · rw [if_pos h0]; exact ⟨_, rfl⟩
    · rw [if_neg h0]
      by_cases h1 : ρ p1 = false
      · rw [if_pos h1]; exact ⟨_, rfl⟩
      · rw [if_neg h1, if_neg (by rw [h]; exact Bool.false_ne_true)]
        by_cases h2 : ρ (p1 + 1) = false
        · rw [if_pos h2]; exact ⟨_, rfl⟩
        · rw [if_neg h2]
          by_cases h3 : ρ (get_photos ρ (p1 + 2) title d.photos_env).2.2 = false
          · rw [if_pos h3]; exact ⟨_, rfl⟩
          · rw [if_neg h3]
            by_cases h4 : ρ (get_reviews ρ
                ((get_photos ρ (p1 + 2) title d.photos_env).2.2 + 1)
                d.tabs d.review_els).2.2 = false
            · rw [if_pos h4]; exact ⟨_, rfl⟩
            · rw [if_neg h4]; exact ⟨_, rfl⟩

theorem itemLoopE_ok {ρ : Nat → Bool} {env : KeywordEnv} {kf : KeywordFail}
    {flt : Filters} {now : CivilD} {kw : String} {total : Nat}
    (hdf : ∀ href, (kf.detail_of href).contact_fail = false) :
    ∀ (links : List (String × String)) (i p : Nat) (seen : List String) (count : Nat),
      ∃ r, itemLoopE ρ env kf flt now kw total links i p seen count = Except.ok r := by
  intro links
  induction links with
  | nil =>
    intro i p seen count
    exact ⟨(count, p), rfl⟩
  | cons lk rest ih =>
    rcases lk with ⟨href, nm⟩
    intro i p seen count
    simp only [itemLoopE]
    by_cases hρ : ρ p = false
    · rw [if_pos hρ]; exact ⟨_, rfl⟩
    · rw [if_neg hρ]
      by_cases hg : (env.item_of href).get_fails = true
      · rw [if_pos hg]
        exact ih _ _ _ _
      · rw [if_neg hg]
        rcases @extract_detailE_ok ρ (p + 1) kw (env.item_of href).detail
            (kf.detail_of href) (hdf href) with ⟨⟨resD, pD⟩, hD⟩
        rw [hD]
        rcases resD with _ | data
        · exact ih _ _ _ _
        · dsimp only
          by_cases hs : seen.contains (dedupKey data) = true
          · rw [if_pos hs]
            exact ih _ _ _ _
          · rw [if_neg hs]
            by_cases hflt : apply_filters now data flt = false
            · rw [if_pos hflt]
              exact ih _ _ _ _
            · rw [if_neg hflt]
              exact ih _ _ _ _

theorem search_keywordE_ok {ρ : Nat → Bool} {p : Nat} {kw : String}
    {flt : Filters} {now : CivilD} {env : KeywordEnv} {kf : KeywordFail}
    (hkf : kwFailFree kf) :
    ∃ r, search_keywordE ρ p kw flt now env kf = Except.ok r := by
  simp only [search_keywordE]
  by_cases h1 : env.search_get_fails = true
  · rw [if_pos h1]; exact ⟨_, rfl⟩
  · rw [if_neg h1]
    rcases @collect_resultsE_ok ρ p env.collect kf.collect hkf.1 hkf.2.1
      with ⟨⟨results, p1⟩, hC⟩
    rw [hC]
    dsimp only
    by_cases h2 : results = []
    · rw [if_pos h2]; exact ⟨_, rfl⟩
    · rw [if_neg h2]
      exact itemLoopE_ok hkf.2.2 _ _ _ _ _

theorem kwLoopE_ok {ρ : Nat → Bool} {w : World} {wf : WorldFail}
    {flt : Filters} {now : CivilD} (hwf : worldFailFree wf) :
    ∀ (kws : List String) (p count : Nat),
      ∃ n, kwLoopE ρ w wf flt now kws p count = Except.ok n := by
  intro kws
  induction kws with
  | nil =>
    intro p count
    exact ⟨count, rfl⟩
  | cons kw rest ih =>
    intro p count
    simp only [kwLoopE]
    by_cases hρ : ρ p = false
    · rw [if_pos hρ]; exact ⟨_, rfl⟩
    · rw [if_neg hρ]
      rcases @search_keywordE_ok ρ (p + 1) kw flt now (w.kw_env kw)
          (wf.kw_fail kw) (hwf kw) with ⟨⟨c, p1⟩, hS⟩
      rw [hS]
      dsimp only
      exact ih _ _

/-- C4 (amended): when the browser launch does not raise and none of the
unguarded DOM operations raises, `run` returns an integer count — the
`driver.get` failures skip the keyword or the item and the sub-extractors
are internally guarded.  But the unguarded operations do propagate after a
successful launch: a WebDriver failure in `_collect_results`' scroll/collect
DOM reads (lines 175, 178, 193–194, 214) or in `_extract_contact_info`'s
info-block reads (lines 868–873) escapes `run`, as the second and third
conjuncts show on concrete worlds. -/
theorem C4_exception_boundary :
    (∀ (ρ : Nat → Bool) (keywords : List String) (flt : Filters) (now : CivilD)
        (w : World) (wf : WorldFail), w.init_fails = false → worldFailFree wf →
        ∃ n, runE ρ keywords flt now w wf = Except.ok n) ∧
    runE (fun _ => true) ["a"] {} d0 w1 wfDom = Except.error () ∧
    runE (fun _ => true) ["a"] {} d0 w1 wfContact = Except.error () := by
  refine ⟨?_, rfl, rfl⟩
  intro ρ keywords flt now w wf hi hwf
  rw [runE, if_neg (by rw [hi]; exact Bool.false_ne_true)]
  exact kwLoopE_ok hwf keywords 0 0

/-- Witness for C4 (amended): a concrete world whose launch succeeds and
whose unguarded DOM operations never raise returns a count. -/
theorem C4_exception_boundary_witness :
    w1.init_fails = false ∧ worldFailFree {} ∧
    ∃ n, runE (fun _ => true) ["a"] {} d0 w1 {} = Except.ok n :=
  ⟨rfl, fun _ => ⟨fun _ => rfl, rfl, fun _ => rfl⟩,
    C4_exception_boundary.1 (fun _ => true) ["a"] {} d0 w1 {} rfl
      (fun _ => ⟨fun _ => rfl, rfl, fun _ => rfl⟩)⟩

end GScrape
